import Mathlib

/-!
AMP_ESP32_Command: button-triggered raw audio playback.

A shallow embedding of `src/main.cpp` and theorems about it.

* The sketch's globals (three `File` handles, three remembered button levels)
  form `State`; everything the sketch sends to the outside (I2S driver calls,
  serial lines) is recorded in `World`.
* `uint8_t` buffer cells are natural numbers, `int16_t`/`int` values are
  integers with the narrowing conversions written out (`toInt16`, `toUInt8`).
* `VOLUME` is a `float`.  Every finite non-negative `float` is a dyadic
  rational `num / 2 ^ shift`, and the product `sample * VOLUME` is modelled
  with the IEEE-754 binary32 rounding (round to nearest, ties to even, 24-bit
  significand, gradual underflow) carried out in integer arithmetic.
* The `while` loop of `playFile` is modelled with a fuel argument that bounds
  the number of `read` calls; running out of fuel yields `none`, and the
  theorems show that a fuel larger than the file length always suffices.
* `setup` is a function of what the card and the drivers answer (`Boot`); ending
  in one of its `while (1);` loops is the outcome `halted`, and `sketch` is
  `setup` followed by the ticks of `loop`.
-/

namespace AmpCommand

/-! ## Configuration constants (main.cpp, lines 15-21) -/

/-- Bytes read from the card and written to I2S at a time. -/
def BUFFER_SIZE : Nat := 1024

/-- A finite non-negative `float`, written as the dyadic rational
`num / 2 ^ shift`. -/
structure Volume where
  num : Nat
  shift : Nat
deriving DecidableEq, Repr

/-- The configured volume, `const float VOLUME = 1.0`. -/
def VOLUME : Volume := ⟨1, 0⟩

/-- Arduino's `LOW`. -/
abbrev LOW : Int := 0

/-- Arduino's `HIGH`. -/
abbrev HIGH : Int := 1

/-! ## Machine arithmetic -/

/-- Conversion of an `int` to `int16_t` (two's complement narrowing). -/
def toInt16 (x : Int) : Int := (x + 32768) % 65536 - 32768

/-- Conversion of an `int` to `uint8_t` (reduction modulo 256). -/
def toUInt8 (x : Int) : Nat := (x % 256).toNat

/-- Number of binary digits of `a`, by halving at most `fuel` times. -/
def bitLengthAux : Nat → Nat → Nat
  | 0, _ => 0
  | fuel + 1, a => if a = 0 then 0 else bitLengthAux fuel (a / 2) + 1

/-- Number of binary digits of `a` (`0` for `a = 0`). -/
def bitLength (a : Nat) : Nat := bitLengthAux a a

/-- Rounds `a` to a multiple of `2 ^ s`, to nearest, ties to the even
multiple. -/
def roundHalfEven (a s : Nat) : Nat :=
  let q := a / 2 ^ s
  let r := a % 2 ^ s
  if 2 * r < 2 ^ s then q * 2 ^ s
  else if 2 ^ s < 2 * r then (q + 1) * 2 ^ s
  else if q % 2 = 0 then q * 2 ^ s
  else (q + 1) * 2 ^ s

/-- Binary exponent, in units of `2 ^ (-k)`, of the spacing of binary32 numbers
around `a / 2 ^ k`: a 24-bit significand, and never finer than `2 ^ (-149)`. -/
def f32Quantum (a k : Nat) : Nat := max (bitLength a - 24) (k - 149)

/-- The binary32 number nearest to `a / 2 ^ k`, again in units of
`2 ^ (-k)`. -/
def f32Round (a k : Nat) : Nat := roundHalfEven a (f32Quantum a k)

/-- The expression `(int16_t)(sample * VOLUME)` before narrowing: `sample` is
converted to `float` exactly, the product is rounded to binary32, and the
conversion to an integer type discards the fractional part.  Overflow of the
product to infinity is not modelled; it needs a volume above `2 ^ 120`. -/
def mulVolume (sample : Int) (v : Volume) : Int :=
  let m := f32Round (sample.natAbs * v.num) v.shift / 2 ^ v.shift
  if sample < 0 then -(m : Int) else (m : Int)

/-- The body of the volume loop for one buffer cell (main.cpp, lines 80-82).
Where the truncated product does not fit an `int16_t`, C++ leaves the conversion
undefined; the model narrows it like an integer conversion. -/
def volumeStep (v : Volume) (b : Nat) : Nat :=
  let sample := toInt16 ((b : Int) - 128)
  let sample := toInt16 (mulVolume sample v)
  toUInt8 (sample + 128)

/-- The volume loop `for (int i = 0; i < bytesRead; i++)` (main.cpp, lines
79-83); the first argument counts the iterations still to run. -/
def volumeLoop (v : Volume) : Nat → Nat → List Nat → List Nat
  | 0, _, buffer => buffer
  | todo + 1, i, buffer =>
    volumeLoop v todo (i + 1) (buffer.set i (volumeStep v (buffer.getD i 0)))

/-! ## Files, peripherals and the sketch's state -/

/-- The three audio resources opened in `setup`. -/
inductive Clip where
  | kiritsu
  | kiwotsuke
  | rei
deriving DecidableEq, Repr

/-- An operation performed on a file handle. -/
inductive FileOp where
  | seek (pos : Nat)
  | read (maxBytes : Nat) (bytesRead : Nat)
deriving DecidableEq, Repr

/-- An Arduino `File`: the resource it was opened on, whether the handle is
valid (`operator bool`), the resource's bytes, the read cursor, and the
operations performed on the handle so far. -/
structure File where
  name : Clip
  valid : Bool
  data : List Nat
  pos : Nat
  ops : List FileOp
deriving DecidableEq, Repr

/-- Call of `file.seek(p)`. -/
def File.seek (file : File) (p : Nat) : File :=
  { file with pos := p, ops := file.ops ++ [FileOp.seek p] }

/-- What `file.read(buffer, n)` leaves behind. -/
structure ReadResult where
  file : File
  buffer : List Nat
  bytesRead : Nat

/-- Call of `file.read(buffer, n)`: copies the next `min n (bytes remaining)`
bytes to the front of the buffer, advances the cursor by that amount and
returns the count. -/
def File.read (file : File) (buffer : List Nat) (n : Nat) : ReadResult :=
  let got := (file.data.drop file.pos).take n
  { file := { file with pos := file.pos + got.length,
                        ops := file.ops ++ [FileOp.read n got.length] }
    buffer := got ++ buffer.drop got.length
    bytesRead := got.length }

/-- A call into the I2S driver that touches the output. -/
inductive I2SEvent where
  | write (bytes : List Nat)
  | zeroDmaBuffer
deriving DecidableEq, Repr

/-- The lines the sketch prints on `Serial` from `playFile` and `loop`. -/
inductive SerialMsg where
  | fileInvalid
  | playingCompleted
  | kiritsuPressed
  | kiwotsukePressed
  | reiPressed
deriving DecidableEq, Repr

/-- Everything outside the sketch's variables: the I2S calls made so far, the
serial lines printed so far, and a record of the files `playFile` was entered
with (bookkeeping for the theorems; the program never reads it). -/
structure World where
  i2s : List I2SEvent
  serial : List SerialMsg
  calls : List Clip
deriving DecidableEq, Repr

/-- Call of `Serial.println`. -/
def World.println (w : World) (m : SerialMsg) : World :=
  { w with serial := w.serial ++ [m] }

/-- Call of `i2s_write(I2S_NUM_0, buffer, n, &bytes_written, portMAX_DELAY)`:
blocks until the first `n` buffer cells are queued. -/
def World.i2sWrite (w : World) (buffer : List Nat) (n : Nat) : World :=
  { w with i2s := w.i2s ++ [I2SEvent.write (buffer.take n)] }

/-- Call of `i2s_zero_dma_buffer(I2S_NUM_0)`. -/
def World.i2sZeroDmaBuffer (w : World) : World :=
  { w with i2s := w.i2s ++ [I2SEvent.zeroDmaBuffer] }

/-- The `while` loop of `playFile` (main.cpp, lines 77-87).  `fuel` bounds the
number of `read` calls. -/
def playLoop (K : Nat) (v : Volume) : Nat → File → List Nat → World → Option (File × World)
  | 0, _, _, _ => none
  | fuel + 1, file, buffer, w =>
    let r := file.read buffer K
    if 0 < r.bytesRead then
      let buffer := volumeLoop v r.bytesRead 0 r.buffer
      playLoop K v fuel r.file buffer (w.i2sWrite buffer r.bytesRead)
    else
      some (r.file, w)

/-- The function `playFile(File &file)` (main.cpp, lines 62-92) with buffer
size `K` and volume `v`.  The buffer is a local array that C++ leaves
uninitialised; it starts as zeros here, and the right-hand side of `playLoop_eq`
does not mention it: its initial contents never reach the output. -/
def playFile (K : Nat) (v : Volume) (fuel : Nat) (file : File) (w : World) :
    Option (File × World) :=
  let w := { w with calls := w.calls ++ [file.name] }
  if file.valid = false then
    some (file, w.println SerialMsg.fileInvalid)
  else
    match playLoop K v fuel (file.seek 0) (List.replicate K 0) w with
    | none => none
    | some (file, w) =>
      some (file, (w.i2sZeroDmaBuffer).println SerialMsg.playingCompleted)

/-- The sketch's global variables together with the outside world. -/
structure State where
  kiritsuFile : File
  kiwotsukeFile : File
  reiFile : File
  lastKiritsuState : Int
  lastKiwotsukeState : Int
  lastReiState : Int
  world : World
deriving DecidableEq, Repr

/-- The levels returned by the three `digitalRead` calls that open a tick. -/
structure Pins where
  kiritsu : Int
  kiwotsuke : Int
  rei : Int
deriving DecidableEq, Repr

/-- Body of the first `if` of `loop` (main.cpp, lines 133-134). -/
def pressKiritsu (K : Nat) (v : Volume) (fuel : Nat) (st : State) : Option State :=
  match playFile K v fuel st.kiritsuFile (st.world.println SerialMsg.kiritsuPressed) with
  | none => none
  | some (file, w) => some { st with kiritsuFile := file, world := w }

/-- Body of the second `if` of `loop` (main.cpp, lines 139-140). -/
def pressKiwotsuke (K : Nat) (v : Volume) (fuel : Nat) (st : State) : Option State :=
  match playFile K v fuel st.kiwotsukeFile (st.world.println SerialMsg.kiwotsukePressed) with
  | none => none
  | some (file, w) => some { st with kiwotsukeFile := file, world := w }

/-- Body of the third `if` of `loop` (main.cpp, lines 145-146). -/
def pressRei (K : Nat) (v : Volume) (fuel : Nat) (st : State) : Option State :=
  match playFile K v fuel st.reiFile (st.world.println SerialMsg.reiPressed) with
  | none => none
  | some (file, w) => some { st with reiFile := file, world := w }

/-- One call of `loop()` (main.cpp, lines 125-156) with the three sampled
levels `pins`.  The closing `delay(10)` changes nothing in the state. -/
def loop (K : Nat) (v : Volume) (fuel : Nat) (st : State) (pins : Pins) : Option State :=
  let currentKiritsuState := pins.kiritsu
  let currentKiwotsukeState := pins.kiwotsuke
  let currentReiState := pins.rei
  let s1 := if currentKiritsuState = HIGH ∧ st.lastKiritsuState = LOW
    then pressKiritsu K v fuel st else some st
  let s2 := s1.bind fun st =>
    if currentKiwotsukeState = HIGH ∧ st.lastKiwotsukeState = LOW
    then pressKiwotsuke K v fuel st else some st
  let s3 := s2.bind fun st =>
    if currentReiState = HIGH ∧ st.lastReiState = LOW
    then pressRei K v fuel st else some st
  s3.map fun st =>
    { st with lastKiritsuState := currentKiritsuState
              lastKiwotsukeState := currentKiwotsukeState
              lastReiState := currentReiState }

/-! ## Closed forms used to state the results -/

/-- The chunks that successive `read(buffer, K)` calls return on the remaining
bytes `l`, for at most `fuel` calls. -/
def chunksAux (K : Nat) : Nat → List Nat → List (List Nat)
  | 0, _ => []
  | fuel + 1, l =>
    if 0 < (l.take K).length then l.take K :: chunksAux K fuel (l.drop K) else []

/-- The chunks that `read(buffer, K)` calls return on a stream with bytes
`l`, read from its start to its end. -/
def chunks (K : Nat) (l : List Nat) : List (List Nat) := chunksAux K (l.length + 1) l

/-- The handle a `playFile` call with buffer size `K` leaves behind. -/
def playedFile (K : Nat) (file : File) : File :=
  if file.valid = false then file
  else
    { file with
        pos := file.data.length
        ops := file.ops ++ [FileOp.seek 0]
          ++ (chunks K file.data).map (fun c => FileOp.read K c.length)
          ++ [FileOp.read K 0] }

/-- The I2S calls of one `playFile` call on a valid handle with bytes `data`. -/
def playedOutput (K : Nat) (v : Volume) (data : List Nat) : List I2SEvent :=
  (chunks K data).map (fun c => I2SEvent.write (c.map (volumeStep v)))
    ++ [I2SEvent.zeroDmaBuffer]

/-- The outside world after a `playFile` call. -/
def playedWorld (K : Nat) (v : Volume) (file : File) (w : World) : World :=
  if file.valid = false then
    { w with serial := w.serial ++ [SerialMsg.fileInvalid]
             calls := w.calls ++ [file.name] }
  else
    { i2s := w.i2s ++ playedOutput K v file.data
      serial := w.serial ++ [SerialMsg.playingCompleted]
      calls := w.calls ++ [file.name] }

/-! ## The transform as the specification words it -/

/-- The spec's `clamp(x, lo, hi)`. -/
def specClamp (x lo hi : Int) : Int := max lo (min x hi)

/-- The spec's `round`, applied to the exact quotient `n / 2 ^ k`: the nearest
integer, halves away from zero. -/
def specRound (n : Int) (k : Nat) : Int :=
  let m := (2 * n.natAbs + 2 ^ k) / 2 ^ (k + 1)
  if n < 0 then -(m : Int) else (m : Int)

/-- The spec's `clamp(round((b-128)*v)+128, 0, 255)` for `v = num / 2 ^ shift`,
with the product taken exactly. -/
def specTransform (v : Volume) (b : Nat) : Int :=
  specClamp (specRound (((b : Int) - 128) * v.num) v.shift + 128) 0 255

/-- The sampled level of a channel. -/
def Pins.level (p : Pins) : Clip → Int
  | Clip.kiritsu => p.kiritsu
  | Clip.kiwotsuke => p.kiwotsuke
  | Clip.rei => p.rei

/-- The remembered level of a channel. -/
def State.lastLevel (st : State) : Clip → Int
  | Clip.kiritsu => st.lastKiritsuState
  | Clip.kiwotsuke => st.lastKiwotsukeState
  | Clip.rei => st.lastReiState

/-- The file handle of a channel. -/
def State.file (st : State) : Clip → File
  | Clip.kiritsu => st.kiritsuFile
  | Clip.kiwotsuke => st.kiwotsukeFile
  | Clip.rei => st.reiFile

/-- Every handle is the one `setup` opened for its channel (main.cpp, lines
110-112), and `fuel` exceeds the length of each of the three resources. -/
def State.Ready (st : State) (fuel : Nat) : Prop :=
  ∀ c : Clip, (st.file c).name = c ∧ (st.file c).data.length < fuel

/-- The state after the first `if` of `loop`. -/
def afterKiritsu (K : Nat) (v : Volume) (st : State) (pins : Pins) : State :=
  if pins.kiritsu = HIGH ∧ st.lastKiritsuState = LOW then
    { st with
        kiritsuFile := playedFile K st.kiritsuFile
        world := playedWorld K v st.kiritsuFile (st.world.println SerialMsg.kiritsuPressed) }
  else st

/-- The state after the second `if` of `loop`. -/
def afterKiwotsuke (K : Nat) (v : Volume) (st : State) (pins : Pins) : State :=
  if pins.kiwotsuke = HIGH ∧ st.lastKiwotsukeState = LOW then
    { st with
        kiwotsukeFile := playedFile K st.kiwotsukeFile
        world := playedWorld K v st.kiwotsukeFile
          (st.world.println SerialMsg.kiwotsukePressed) }
  else st

/-- The state after the third `if` of `loop`. -/
def afterRei (K : Nat) (v : Volume) (st : State) (pins : Pins) : State :=
  if pins.rei = HIGH ∧ st.lastReiState = LOW then
    { st with
        reiFile := playedFile K st.reiFile
        world := playedWorld K v st.reiFile (st.world.println SerialMsg.reiPressed) }
  else st

/-- The state one tick leaves behind. -/
def afterLoop (K : Nat) (v : Volume) (st : State) (pins : Pins) : State :=
  { afterRei K v (afterKiwotsuke K v (afterKiritsu K v st pins) pins) pins with
      lastKiritsuState := pins.kiritsu
      lastKiwotsukeState := pins.kiwotsuke
      lastReiState := pins.rei }

/-! ## The specification's end-to-end scenario -/

/-- One half, the volume of the spec's scenario. -/
def halfVolume : Volume := ⟨1, 1⟩

/-- The spec's three four-byte streams, freshly opened, all remembered levels
`LOW`, nothing sent to the outside yet. -/
def scenarioState : State :=
  { kiritsuFile := ⟨Clip.kiritsu, true, [100, 150, 200, 250], 0, []⟩
    kiwotsukeFile := ⟨Clip.kiwotsuke, true, [0, 255, 128, 64], 0, []⟩
    reiFile := ⟨Clip.rei, true, [128, 128, 128, 128], 0, []⟩
    lastKiritsuState := LOW
    lastKiwotsukeState := LOW
    lastReiState := LOW
    world := ⟨[], [], []⟩ }

/-! ## Input histories -/

/-- What the three input pins do during one tick: the levels `loop` samples at
its start, and the levels the pins take afterwards while the tick's `playFile`
calls run. -/
structure TickInput where
  sampled : Pins
  during : Pins
deriving DecidableEq, Repr

/-- Successive calls of `loop()` over an input history.  Each tick reads the pins
once, at its start, so only `sampled` is ever passed on. -/
def runTicks (K : Nat) (v : Volume) (fuel : Nat) : State → List TickInput → Option State
  | st, [] => some st
  | st, t :: ts => (loop K v fuel st t.sampled).bind fun st => runTicks K v fuel st ts

/-- The sample rate handed to the I2S driver, `44100 / 2`. -/
def SAMPLE_RATE : Nat := 44100 / 2

/-- ESP-IDF's `ESP_OK`. -/
abbrev ESP_OK : Int := 0

/-- ESP-IDF's `ESP_FAIL`. -/
abbrev ESP_FAIL : Int := -1

/-- What the hardware and the libraries answer during `setup`: the result of
`SD.begin`, the handles the three `SD.open` calls return, and the `esp_err_t`
codes the four I2S driver calls of `setupI2S` return. -/
structure Boot where
  mountOk : Bool
  kiritsu : File
  kiwotsuke : File
  rei : File
  driverInstall : Int
  setPin : Int
  setDacMode : Int
  zeroDmaBuffer : Int
deriving DecidableEq, Repr

/-- What `setup` does towards the outside, besides clearing the DMA buffer: the
two failure lines and the closing line on `Serial`, and the three configuring
calls into the I2S driver. -/
inductive SetupEvent where
  | mountFailed
  | openFailed
  | i2sDriverInstall (sampleRate bitsPerSample dmaBufCount dmaBufLen : Nat)
  | i2sSetPin
  | i2sSetDacMode
  | setupCompleted
deriving DecidableEq, Repr

/-- How `setup` ends: caught in one of its `while (1);` loops, or returned with
the globals assigned. -/
inductive SetupResult where
  | halted (log : List SetupEvent)
  | completed (st : State) (log : List SetupEvent)
deriving DecidableEq, Repr

/-- Call of `i2s_driver_install(I2S_NUM_0, &i2s_config, 0, NULL)`: the code it
returns and the log with the call added. -/
def i2sDriverInstall (boot : Boot) (log : List SetupEvent) : Int × List SetupEvent :=
  (boot.driverInstall, log ++ [SetupEvent.i2sDriverInstall SAMPLE_RATE 8 8 64])

/-- Call of `i2s_set_pin(I2S_NUM_0, NULL)`. -/
def i2sSetPin (boot : Boot) (log : List SetupEvent) : Int × List SetupEvent :=
  (boot.setPin, log ++ [SetupEvent.i2sSetPin])

/-- Call of `i2s_set_dac_mode(I2S_DAC_CHANNEL_BOTH_EN)`. -/
def i2sSetDacMode (boot : Boot) (log : List SetupEvent) : Int × List SetupEvent :=
  (boot.setDacMode, log ++ [SetupEvent.i2sSetDacMode])

/-- The function `setupI2S()` (main.cpp, lines 38-56).  Each of the four driver
calls is an expression statement: the `esp_err_t` it returns is dropped. -/
def setupI2S (boot : Boot) (log : List SetupEvent) (w : World) : List SetupEvent × World :=
  let log := (i2sDriverInstall boot log).2
  let log := (i2sSetPin boot log).2
  let log := (i2sSetDacMode boot log).2
  (log, w.i2sZeroDmaBuffer)

/-- Call of `SD.open` on the path of clip `c`: the handle the card answers with,
as a handle on that resource. -/
def sdOpen (boot : Boot) : Clip → File
  | Clip.kiritsu => { boot.kiritsu with name := Clip.kiritsu }
  | Clip.kiwotsuke => { boot.kiwotsuke with name := Clip.kiwotsuke }
  | Clip.rei => { boot.rei with name := Clip.rei }

/-- The function `setup()` (main.cpp, lines 95-122).  `Serial.begin` and the
three `pinMode` calls leave no trace in the model; the remembered levels start
at `LOW` (lines 30-32). -/
def setup (boot : Boot) : SetupResult :=
  if boot.mountOk = false then
    SetupResult.halted [SetupEvent.mountFailed]
  else
    let kiritsuFile := sdOpen boot Clip.kiritsu
    let kiwotsukeFile := sdOpen boot Clip.kiwotsuke
    let reiFile := sdOpen boot Clip.rei
    if kiritsuFile.valid = false ∨ kiwotsukeFile.valid = false ∨ reiFile.valid = false then
      SetupResult.halted [SetupEvent.openFailed]
    else
      let r := setupI2S boot [] ⟨[], [], []⟩
      SetupResult.completed
        { kiritsuFile := kiritsuFile
          kiwotsukeFile := kiwotsukeFile
          reiFile := reiFile
          lastKiritsuState := LOW
          lastKiwotsukeState := LOW
          lastReiState := LOW
          world := r.2 }
        (r.1 ++ [SetupEvent.setupCompleted])

/-- How a run of the sketch over a finite input history stands. -/
inductive SketchResult where
  | halted (log : List SetupEvent)
  | running (st : State) (log : List SetupEvent)
  | outOfFuel
deriving DecidableEq, Repr

/-- The sketch under the Arduino runtime, which calls `setup()` once and then
`loop()` again and again: when `setup` does not return, no tick runs. -/
def sketch (K : Nat) (v : Volume) (fuel : Nat) (boot : Boot) (inputs : List TickInput) :
    SketchResult :=
  match setup boot with
  | SetupResult.halted log => SketchResult.halted log
  | SetupResult.completed st log =>
    match runTicks K v fuel st inputs with
    | some st => SketchResult.running st log
    | none => SketchResult.outOfFuel

/-- The spec's three streams as `SD.open` returns them, the card mounted. -/
def scenarioBoot (driverInstall setPin setDacMode zeroDmaBuffer : Int) : Boot :=
  { mountOk := true
    kiritsu := ⟨Clip.kiritsu, true, [100, 150, 200, 250], 0, []⟩
    kiwotsuke := ⟨Clip.kiwotsuke, true, [0, 255, 128, 64], 0, []⟩
    rei := ⟨Clip.rei, true, [128, 128, 128, 128], 0, []⟩
    driverInstall := driverInstall
    setPin := setPin
    setDacMode := setDacMode
    zeroDmaBuffer := zeroDmaBuffer }

/-! ## Counting edges in a level sequence -/

/-- Number of `LOW → HIGH` steps in `levels`, read after the level `prev`. -/
def risingEdges : Int → List Int → Nat
  | _, [] => 0
  | prev, cur :: rest => (if cur = HIGH ∧ prev = LOW then 1 else 0) + risingEdges cur rest

/-- Whether a tick that starts in `st` and samples `pins` sees a rising edge on
channel `c`. -/
def rising (st : State) (pins : Pins) (c : Clip) : Bool :=
  decide (pins.level c = HIGH ∧ st.lastLevel c = LOW)

/-! ## The truncated single-precision product, stated without the code -/

/-- The exact quotient `n / 2 ^ k` with its fractional part discarded (rounded
toward zero). -/
def specTrunc (n : Int) (k : Nat) : Int :=
  if n < 0 then -((n.natAbs / 2 ^ k : Nat) : Int) else ((n.natAbs / 2 ^ k : Nat) : Int)

/-- `t` is the single-precision product of the integer `s` and `v = num / 2 ^ shift`
with its fractional part discarded.  With `a = |s| * num`, so that the exact
product has magnitude `a / 2 ^ shift`:

* `2 ^ sh` is the spacing, in units of `2 ^ (-shift)`, of the binary32 numbers
  around the exact product: `sh` is the least exponent for which the significand
  `a / 2 ^ sh` stays below `2 ^ 24`, and the spacing is never below `2 ^ (-149)`;
* `r` is a multiple of the spacing nearest to `a`, and the even multiple when `a`
  lies half-way between two of them;
* `t` is `r / 2 ^ shift` rounded down, with the sign of `s`. -/
def specTruncatedProduct (s : Int) (v : Volume) (t : Int) : Prop :=
  ∃ sh r : Nat,
    (v.shift - 149 ≤ sh ∧ s.natAbs * v.num < 2 ^ (24 + sh)
      ∧ ∀ sh' : Nat, v.shift - 149 ≤ sh' → s.natAbs * v.num < 2 ^ (24 + sh') → sh ≤ sh')
    ∧ (2 ^ sh ∣ r ∧ 2 * (r - s.natAbs * v.num) ≤ 2 ^ sh ∧ 2 * (s.natAbs * v.num - r) ≤ 2 ^ sh
      ∧ ((2 * (r - s.natAbs * v.num) = 2 ^ sh ∨ 2 * (s.natAbs * v.num - r) = 2 ^ sh) →
          r / 2 ^ sh % 2 = 0))
    ∧ t = if s < 0 then -((r / 2 ^ v.shift : Nat) : Int) else ((r / 2 ^ v.shift : Nat) : Int)

/-- The scenario with the second file's handle invalid. -/
def secondClosedState : State :=
  { scenarioState with kiwotsukeFile := ⟨Clip.kiwotsuke, false, [], 0, []⟩ }

/-! ## Binary32 rounding never leaves the sample range -/

theorem bitLengthAux_le (fuel : Nat) :
    ∀ (a n : Nat), a < 2 ^ n → bitLengthAux fuel a ≤ n := by
  induction fuel with
  | zero => intro a n _; simp [bitLengthAux]
  | succ fuel ih =>
    intro a n h
    by_cases ha : a = 0
    · simp [bitLengthAux, ha]
    · cases n with
      | zero => simp at h; omega
      | succ n =>
        have h2 : a / 2 < 2 ^ n := by
          rw [Nat.pow_succ] at h
          omega
        have := ih (a / 2) n h2
        simp only [bitLengthAux, if_neg ha]
        omega

theorem bitLength_le (a n : Nat) (h : a < 2 ^ n) : bitLength a ≤ n :=
  bitLengthAux_le a a n h

theorem roundHalfEven_le (a s M : Nat) (hM : 2 ^ s ∣ M) (h : a ≤ M) :
    roundHalfEven a s ≤ M := by
  obtain ⟨m, rfl⟩ := hM
  have hpos : 0 < 2 ^ s := Nat.two_pow_pos _
  have hdm : 2 ^ s * (a / 2 ^ s) + a % 2 ^ s = a := Nat.div_add_mod a (2 ^ s)
  have hq : a / 2 ^ s ≤ m := by
    apply Nat.div_le_of_le_mul
    exact h
  have hlow : a / 2 ^ s * 2 ^ s ≤ 2 ^ s * m := by
    rw [Nat.mul_comm]; exact Nat.mul_le_mul_left _ hq
  have hup : 0 < a % 2 ^ s → (a / 2 ^ s + 1) * 2 ^ s ≤ 2 ^ s * m := by
    intro hr
    have hlt : a / 2 ^ s < m := by
      rcases Nat.lt_or_ge (a / 2 ^ s) m with h1 | h1
      · exact h1
      · have : 2 ^ s * m ≤ 2 ^ s * (a / 2 ^ s) := Nat.mul_le_mul_left _ h1
        omega
    rw [Nat.mul_comm]; exact Nat.mul_le_mul_left _ hlt
  unfold roundHalfEven
  simp only
  split
  · exact hlow
  · split
    · apply hup; omega
    · split
      · exact hlow
      · apply hup; omega

theorem f32Round_le (a k n : Nat) (h : a ≤ n * 2 ^ k) (hn : n ≤ 128) :
    f32Round a k ≤ n * 2 ^ k := by
  apply roundHalfEven_le _ _ _ _ h
  have hq : f32Quantum a k ≤ k := by
    have hlt : a < 2 ^ (k + 8) := by
      have h1 : n * 2 ^ k ≤ 128 * 2 ^ k := Nat.mul_le_mul_right _ hn
      have h2 : 128 * 2 ^ k < 2 ^ (k + 8) := by
        rw [Nat.pow_add]
        have : 0 < 2 ^ k := Nat.two_pow_pos _
        omega
      omega
    have := bitLength_le a (k + 8) hlt
    unfold f32Quantum
    omega
  exact Dvd.dvd.mul_left (Nat.pow_dvd_pow 2 hq) n

theorem mulVolume_bounds (s : Int) (v : Volume) (hs : s.natAbs ≤ 128)
    (hv : v.num ≤ 2 ^ v.shift) :
    (0 ≤ s → 0 ≤ mulVolume s v ∧ mulVolume s v ≤ s)
      ∧ (s < 0 → s ≤ mulVolume s v ∧ mulVolume s v ≤ 0) := by
  have hpos : 0 < 2 ^ v.shift := Nat.two_pow_pos _
  have ha : s.natAbs * v.num ≤ s.natAbs * 2 ^ v.shift := Nat.mul_le_mul_left _ hv
  have hr := f32Round_le (s.natAbs * v.num) v.shift s.natAbs ha hs
  have hm : f32Round (s.natAbs * v.num) v.shift / 2 ^ v.shift ≤ s.natAbs :=
    Nat.div_le_of_le_mul (by rw [Nat.mul_comm (2 ^ v.shift)]; exact hr)
  unfold mulVolume
  simp only
  generalize f32Round (s.natAbs * v.num) v.shift / 2 ^ v.shift = m at hm
  clear hr ha
  constructor
  · intro h0
    have : ¬ s < 0 := by omega
    simp only [if_neg this]
    omega
  · intro h0
    simp only [if_pos h0]
    omega

/-! ## The volume loop and the read loop -/

theorem volumeLoop_append (v : Volume) (xs : List Nat) :
    ∀ (pre post : List Nat),
      volumeLoop v xs.length pre.length (pre ++ xs ++ post)
        = pre ++ xs.map (volumeStep v) ++ post := by
  induction xs with
  | nil => intro pre post; simp [volumeLoop]
  | cons x xs ih =>
    intro pre post
    have h := ih (pre ++ [volumeStep v x]) post
    simp only [List.length_append, List.length_singleton, List.append_assoc,
      List.singleton_append] at h
    have hget : (pre ++ x :: (xs ++ post)).getD pre.length 0 = x := by
      rw [List.getD_append_right _ _ _ _ (le_refl _)]
      simp
    have hset : (pre ++ x :: (xs ++ post)).set pre.length (volumeStep v x)
        = pre ++ volumeStep v x :: (xs ++ post) := by
      simp
    simp only [List.length_cons, volumeLoop, List.append_assoc, List.cons_append,
      List.map_cons, hget, hset]
    simpa using h

theorem volumeLoop_read (v : Volume) (got rest : List Nat) :
    volumeLoop v got.length 0 (got ++ rest) = got.map (volumeStep v) ++ rest := by
  simpa using volumeLoop_append v got [] rest

theorem drop_take_length (K : Nat) (l : List Nat) :
    l.drop (l.take K).length = l.drop K := by
  rw [List.length_take]
  rcases Nat.le_total K l.length with h | h
  · rw [Nat.min_eq_left h]
  · rw [Nat.min_eq_right h, List.drop_of_length_le (le_refl _), List.drop_of_length_le h]

theorem chunksAux_nil (K fuel : Nat) : chunksAux K fuel [] = [] := by
  cases fuel <;> simp [chunksAux]

theorem playLoop_eq (K : Nat) (v : Volume) (hK : 0 < K) :
    ∀ (fuel : Nat) (file : File) (buffer : List Nat) (w : World),
      buffer.length = K → (file.data.drop file.pos).length < fuel →
      playLoop K v fuel file buffer w = some
        ({ file with
            pos := file.pos + (file.data.drop file.pos).length
            ops := file.ops
              ++ (chunksAux K fuel (file.data.drop file.pos)).map
                  (fun c => FileOp.read K c.length)
              ++ [FileOp.read K 0] },
         { w with
            i2s := w.i2s
              ++ (chunksAux K fuel (file.data.drop file.pos)).map
                  (fun c => I2SEvent.write (c.map (volumeStep v))) }) := by
  intro fuel
  induction fuel with
  | zero => intro file buffer w _ h; omega
  | succ fuel ih =>
    intro file buffer w hbuf hfuel
    obtain ⟨name, valid, data, pos, ops⟩ := file
    obtain ⟨i2s, serial, calls⟩ := w
    simp only at hfuel ⊢
    generalize hrem : data.drop pos = rem at hfuel
    by_cases hgot : 0 < (rem.take K).length
    · have hlen : (rem.take K).length ≤ K := by
        rw [List.length_take]; exact Nat.min_le_left _ _
      have hrem' : data.drop (pos + (rem.take K).length) = rem.drop K := by
        rw [← List.drop_drop, hrem, drop_take_length]
      have hremlen : (rem.drop K).length < fuel := by
        rw [List.length_drop]
        rw [List.length_take] at hgot
        omega
      have hsum : (rem.take K).length + (rem.drop K).length = rem.length := by
        rw [← List.length_append, List.take_append_drop]
      have hbuf' : (List.map (volumeStep v) (rem.take K)
          ++ buffer.drop (rem.take K).length).length = K := by
        simp only [List.length_append, List.length_map, List.length_drop]
        omega
      have step := ih
        ⟨name, valid, data, pos + (rem.take K).length,
          ops ++ [FileOp.read K (rem.take K).length]⟩
        (List.map (volumeStep v) (rem.take K) ++ buffer.drop (rem.take K).length)
        ⟨i2s ++ [I2SEvent.write (List.map (volumeStep v) (rem.take K))], serial, calls⟩
        hbuf' (by simp only [hrem']; exact hremlen)
      simp only [hrem'] at step
      have hmap : List.take (rem.take K).length
          (List.map (volumeStep v) (rem.take K) ++ buffer.drop (rem.take K).length)
          = List.map (volumeStep v) (rem.take K) := by
        rw [List.take_append_of_le_length (by simp)]
        rw [List.take_of_length_le (by simp)]
      simp only [playLoop, File.read, hrem, hgot, if_true, volumeLoop_read, World.i2sWrite,
        hmap, step, chunksAux]
      simp only [List.length_take, List.length_drop] at hsum
      simp [Nat.add_assoc, hsum]
    · have hnil : rem = [] := by
        rw [List.length_take] at hgot
        have : rem.length = 0 := by omega
        exact List.length_eq_zero.mp this
      subst hnil
      simp [playLoop, File.read, hrem, chunksAux_nil]

theorem chunksAux_fuel (K : Nat) (hK : 0 < K) :
    ∀ (fuel fuel' : Nat) (l : List Nat), l.length < fuel → l.length < fuel' →
      chunksAux K fuel l = chunksAux K fuel' l := by
  intro fuel
  induction fuel with
  | zero => intro fuel' l h; omega
  | succ fuel ih =>
    intro fuel' l h h'
    cases fuel' with
    | zero => omega
    | succ fuel' =>
      by_cases hgot : 0 < (l.take K).length
      · have hl : (l.drop K).length < l.length := by
          rw [List.length_take] at hgot
          rw [List.length_drop]; omega
        simp only [chunksAux, hgot, if_true]
        rw [ih fuel' (l.drop K) (by omega) (by omega)]
      · simp only [chunksAux, if_neg hgot]

theorem chunksAux_eq_chunks (K : Nat) (hK : 0 < K) (fuel : Nat) (l : List Nat)
    (h : l.length < fuel) : chunksAux K fuel l = chunks K l :=
  chunksAux_fuel K hK fuel (l.length + 1) l h (Nat.lt_succ_self _)

theorem chunks_nil (K : Nat) : chunks K [] = [] := by
  simp [chunks, chunksAux]

theorem chunks_cons (K : Nat) (hK : 0 < K) (l : List Nat) (hl : l ≠ []) :
    chunks K l = l.take K :: chunks K (l.drop K) := by
  have hpos : 0 < l.length := List.length_pos.mpr hl
  have hgot : 0 < (l.take K).length := by
    rw [List.length_take]; omega
  have hdrop : (l.drop K).length < l.length := by
    rw [List.length_drop]; omega
  have h1 : chunksAux K (l.length + 1) l = l.take K :: chunksAux K l.length (l.drop K) := by
    simp only [chunksAux, hgot, if_true]
  show chunksAux K (l.length + 1) l
    = l.take K :: chunksAux K ((l.drop K).length + 1) (l.drop K)
  rw [h1, chunksAux_fuel K hK l.length ((l.drop K).length + 1) (l.drop K) hdrop (Nat.lt_succ_self _)]

theorem chunks_join (K : Nat) (hK : 0 < K) :
    ∀ (n : Nat) (l : List Nat), l.length ≤ n → (chunks K l).flatten = l := by
  intro n
  induction n with
  | zero =>
    intro l h
    have : l = [] := List.length_eq_zero.mp (by omega)
    subst this
    simp [chunks_nil]
  | succ n ih =>
    intro l h
    by_cases hl : l = []
    · subst hl; simp [chunks_nil]
    · have hpos : 0 < l.length := List.length_pos.mpr hl
      rw [chunks_cons K hK l hl, List.flatten_cons,
        ih (l.drop K) (by rw [List.length_drop]; omega), List.take_append_drop]

theorem chunks_lengths (K : Nat) (hK : 0 < K) :
    ∀ (n : Nat) (l : List Nat), l.length ≤ n →
      (chunks K l).map List.length
        = List.replicate (l.length / K) K
          ++ (if l.length % K = 0 then [] else [l.length % K]) := by
  intro n
  induction n with
  | zero =>
    intro l h
    have : l = [] := List.length_eq_zero.mp (by omega)
    subst this
    simp [chunks_nil]
  | succ n ih =>
    intro l h
    by_cases hl : l = []
    · subst hl; simp [chunks_nil]
    · have hpos : 0 < l.length := List.length_pos.mpr hl
      rw [chunks_cons K hK l hl, List.map_cons,
        ih (l.drop K) (by rw [List.length_drop]; omega)]
      rw [List.length_take, List.length_drop]
      rcases Nat.lt_or_ge l.length K with hlt | hge
      · have h0 : l.length - K = 0 := by omega
        have hmod : l.length % K = l.length := Nat.mod_eq_of_lt hlt
        have hdiv : l.length / K = 0 := Nat.div_eq_of_lt hlt
        have hne : ¬ l.length = 0 := by omega
        simp [h0, hmod, hdiv, hne, Nat.min_eq_right (Nat.le_of_lt hlt)]
      · have hdiv : l.length / K = (l.length - K) / K + 1 := by
          conv_lhs => rw [← Nat.sub_add_cancel hge]
          exact Nat.add_div_right _ hK
        have hmod : (l.length - K) % K = l.length % K := by
          conv_rhs => rw [← Nat.sub_add_cancel hge]
          simp
        rw [hdiv, hmod, Nat.min_eq_left hge, List.replicate_succ]
        simp

theorem playFile_invalid (K : Nat) (v : Volume) (fuel : Nat) (file : File) (w : World)
    (h : file.valid = false) :
    playFile K v fuel file w = some (playedFile K file, playedWorld K v file w) := by
  simp [playFile, playedFile, playedWorld, h, World.println]

theorem playFile_valid (K : Nat) (v : Volume) (hK : 0 < K) (fuel : Nat) (file : File)
    (w : World) (h : file.valid = true) (hfuel : file.data.length < fuel) :
    playFile K v fuel file w = some (playedFile K file, playedWorld K v file w) := by
  have hloop := playLoop_eq K v hK fuel (file.seek 0) (List.replicate K 0)
    { w with calls := w.calls ++ [file.name] } (by simp) (by simpa [File.seek] using hfuel)
  simp only [File.seek, List.drop_zero, Nat.zero_add] at hloop
  rw [chunksAux_eq_chunks K hK fuel file.data hfuel, h] at hloop
  simp [playFile, playedFile, playedWorld, playedOutput, h, hloop, File.seek, World.println,
    World.i2sZeroDmaBuffer]

theorem playFile_eq (K : Nat) (v : Volume) (hK : 0 < K) (fuel : Nat) (file : File)
    (w : World) (hfuel : file.data.length < fuel) :
    playFile K v fuel file w = some (playedFile K file, playedWorld K v file w) := by
  cases h : file.valid
  · exact playFile_invalid K v fuel file w h
  · exact playFile_valid K v hK fuel file w h hfuel

theorem pressKiritsu_eq (K : Nat) (v : Volume) (hK : 0 < K) (fuel : Nat) (st : State)
    (hfuel : st.kiritsuFile.data.length < fuel) :
    pressKiritsu K v fuel st = some
      { st with
          kiritsuFile := playedFile K st.kiritsuFile
          world := playedWorld K v st.kiritsuFile
            (st.world.println SerialMsg.kiritsuPressed) } := by
  simp [pressKiritsu, playFile_eq K v hK fuel _ _ hfuel]

theorem pressKiwotsuke_eq (K : Nat) (v : Volume) (hK : 0 < K) (fuel : Nat) (st : State)
    (hfuel : st.kiwotsukeFile.data.length < fuel) :
    pressKiwotsuke K v fuel st = some
      { st with
          kiwotsukeFile := playedFile K st.kiwotsukeFile
          world := playedWorld K v st.kiwotsukeFile
            (st.world.println SerialMsg.kiwotsukePressed) } := by
  simp [pressKiwotsuke, playFile_eq K v hK fuel _ _ hfuel]

theorem pressRei_eq (K : Nat) (v : Volume) (hK : 0 < K) (fuel : Nat) (st : State)
    (hfuel : st.reiFile.data.length < fuel) :
    pressRei K v fuel st = some
      { st with
          reiFile := playedFile K st.reiFile
          world := playedWorld K v st.reiFile
            (st.world.println SerialMsg.reiPressed) } := by
  simp [pressRei, playFile_eq K v hK fuel _ _ hfuel]

/-! ## The playback pipeline -/

theorem volumeStep_range (v : Volume) (b : Nat) (hb : b ≤ 255) (hv : v.num ≤ 2 ^ v.shift) :
    -128 ≤ mulVolume ((b : Int) - 128) v ∧ mulVolume ((b : Int) - 128) v ≤ 127
      ∧ (volumeStep v b : Int) = mulVolume ((b : Int) - 128) v + 128 := by
  have hs : ((b : Int) - 128).natAbs ≤ 128 := by omega
  have hb1 := mulVolume_bounds ((b : Int) - 128) v hs hv
  have h16 : toInt16 ((b : Int) - 128) = (b : Int) - 128 := by
    unfold toInt16; omega
  have hrange : -128 ≤ mulVolume ((b : Int) - 128) v ∧ mulVolume ((b : Int) - 128) v ≤ 127 := by
    rcases Int.lt_or_le ((b : Int) - 128) 0 with hneg | hnn
    · have := hb1.2 hneg; omega
    · have := hb1.1 hnn; omega
  refine ⟨hrange.1, hrange.2, ?_⟩
  unfold volumeStep
  simp only [h16]
  generalize mulVolume ((b : Int) - 128) v = m at hrange
  have h16m : toInt16 m = m := by
    unfold toInt16; omega
  rw [h16m]
  unfold toUInt8
  omega

theorem ceil_div (L K : Nat) (hK : 0 < K) :
    (L + K - 1) / K = L / K + (if L % K = 0 then 0 else 1) := by
  have hdm : K * (L / K) + L % K = L := Nat.div_add_mod L K
  have hlt : L % K < K := Nat.mod_lt L hK
  generalize L / K = q at hdm ⊢
  generalize L % K = r at hdm hlt ⊢
  subst hdm
  by_cases hr : r = 0
  · subst hr
    simp only [if_true, Nat.add_zero]
    have : K * q + K - 1 = (K - 1) + K * q := by omega
    rw [this, Nat.add_mul_div_left _ _ hK, Nat.div_eq_of_lt (by omega)]
    omega
  · simp only [if_neg hr]
    have : K * q + r + K - 1 = (r - 1 + K) + K * q := by omega
    rw [this, Nat.add_mul_div_left _ _ hK, Nat.add_div_right _ hK,
      Nat.div_eq_of_lt (by omega)]
    omega

/-- C1: for every valid stream with bytes `bs`, every chunk size `K ≥ 1` and every
cursor position `pos` the stream had before the call, one `playFile` call returns
and appends to the I2S trace writes whose concatenation is `bs` with the volume
step applied to each byte, followed by the buffer clear. -/
theorem playFile_plays_whole_stream (K : Nat) (v : Volume) (fuel : Nat) (file : File)
    (pos : Nat) (w : World) (hK : 1 ≤ K) (hvalid : file.valid = true)
    (hfuel : file.data.length < fuel) :
    ∃ (file' : File) (w' : World) (ws : List (List Nat)), playFile K v fuel { file with pos := pos } w = some (file', w')
      ∧ w'.i2s = w.i2s ++ ws.map I2SEvent.write ++ [I2SEvent.zeroDmaBuffer]
      ∧ ws.flatten = file.data.map (volumeStep v) := by
  refine ⟨_, _, (chunks K file.data).map (List.map (volumeStep v)),
    playFile_valid K v hK fuel { file with pos := pos } w hvalid hfuel, ?_, ?_⟩
  · simp [playedWorld, playedOutput, hvalid]
  · rw [← List.map_flatten, chunks_join K hK _ _ (le_refl _)]

/-- Witness for C1: a four-byte stream whose cursor was left at 3, chunk size 2,
volume one half. -/
theorem playFile_plays_whole_stream_witness :
    ∃ (file' : File) (w' : World) (ws : List (List Nat)),
      playFile 2 ⟨1, 1⟩ 5
          { (⟨Clip.kiritsu, true, [100, 150, 200, 250], 0, []⟩ : File) with pos := 3 }
          ⟨[], [], []⟩ = some (file', w')
      ∧ w'.i2s = ([] : List I2SEvent) ++ ws.map I2SEvent.write ++ [I2SEvent.zeroDmaBuffer]
      ∧ ws.flatten = [100, 150, 200, 250].map (volumeStep ⟨1, 1⟩) :=
  playFile_plays_whole_stream 2 ⟨1, 1⟩ 5 ⟨Clip.kiritsu, true, [100, 150, 200, 250], 0, []⟩ 3
    ⟨[], [], []⟩ (by decide) rfl (by decide)

theorem bitLengthAux_zero (fuel : Nat) : bitLengthAux fuel 0 = 0 := by
  cases fuel <;> simp [bitLengthAux]

theorem roundHalfEven_zero (a : Nat) : roundHalfEven a 0 = a := by
  simp [roundHalfEven, Nat.mod_one]

theorem mulVolume_exact (s : Int) (v : Volume) (ha : s.natAbs * v.num < 2 ^ 24)
    (hk : v.shift ≤ 149) :
    mulVolume s v =
      if s < 0 then -((s.natAbs * v.num / 2 ^ v.shift : Nat) : Int)
      else ((s.natAbs * v.num / 2 ^ v.shift : Nat) : Int) := by
  have hq : f32Quantum (s.natAbs * v.num) v.shift = 0 := by
    have := bitLength_le _ 24 ha
    unfold f32Quantum
    omega
  simp only [mulVolume, f32Round, hq, roundHalfEven_zero]

theorem volumeStep_one (b : Nat) (hb : b ≤ 255) : volumeStep VOLUME b = b := by
  have hv : VOLUME.num ≤ 2 ^ VOLUME.shift := by decide
  have h := (volumeStep_range VOLUME b hb hv).2.2
  have hs : ((b : Int) - 128).natAbs * VOLUME.num < 2 ^ 24 := by
    have : VOLUME.num = 1 := rfl
    rw [this]; omega
  have hm := mulVolume_exact ((b : Int) - 128) VOLUME hs (by decide)
  have h1 : VOLUME.num = 1 := rfl
  have h2 : VOLUME.shift = 0 := rfl
  simp only [h1, h2, Nat.mul_one, Nat.pow_zero, Nat.div_one] at hm
  rw [hm] at h
  split at h <;> omega

/-- C2 (the claim as stated fails): at `v = 0.5` the code turns byte 255 into 191
and byte 131 into 129, where the spec's `clamp(round((b-128)*v)+128, 0, 255)` gives
192 and 130; so the two do not agree on all bytes and all `v` in `[0,1]`. -/
theorem volumeStep_differs_from_specTransform :
    volumeStep ⟨1, 1⟩ 255 = 191 ∧ specTransform ⟨1, 1⟩ 255 = 192
      ∧ volumeStep ⟨1, 1⟩ 131 = 129 ∧ specTransform ⟨1, 1⟩ 131 = 130
      ∧ ¬ ∀ (v : Volume) (b : Nat), b ≤ 255 → v.num ≤ 2 ^ v.shift →
          (volumeStep v b : Int) = specTransform v b := by
  refine ⟨by decide, by decide, by decide, by decide, ?_⟩
  intro h
  have := h ⟨1, 1⟩ 255 (by decide) (by decide)
  revert this
  decide

theorem lt_two_pow_bitLengthAux (fuel : Nat) :
    ∀ a : Nat, a ≤ fuel → a < 2 ^ bitLengthAux fuel a := by
  induction fuel with
  | zero =>
    intro a h
    have : a = 0 := by omega
    subst this
    simp [bitLengthAux]
  | succ fuel ih =>
    intro a h
    by_cases ha : a = 0
    · subst ha; simp [bitLengthAux]
    · have h2 : a / 2 ≤ fuel := by omega
      have := ih (a / 2) h2
      simp only [bitLengthAux, if_neg ha, Nat.pow_succ]
      omega

theorem lt_two_pow_bitLength (a : Nat) : a < 2 ^ bitLength a :=
  lt_two_pow_bitLengthAux a a (le_refl _)

theorem f32Quantum_spacing (a k : Nat) :
    k - 149 ≤ f32Quantum a k ∧ a < 2 ^ (24 + f32Quantum a k)
      ∧ ∀ sh' : Nat, k - 149 ≤ sh' → a < 2 ^ (24 + sh') → f32Quantum a k ≤ sh' := by
  refine ⟨?_, ?_, ?_⟩
  · unfold f32Quantum; omega
  · have h1 := lt_two_pow_bitLength a
    have h2 : bitLength a ≤ 24 + f32Quantum a k := by
      unfold f32Quantum; omega
    exact Nat.lt_of_lt_of_le h1 (Nat.pow_le_pow_right (by decide) h2)
  · intro sh' h1 h2
    have := bitLength_le a (24 + sh') h2
    unfold f32Quantum
    omega

theorem roundHalfEven_nearest (a s : Nat) :
    2 ^ s ∣ roundHalfEven a s ∧ 2 * (roundHalfEven a s - a) ≤ 2 ^ s
      ∧ 2 * (a - roundHalfEven a s) ≤ 2 ^ s
      ∧ ((2 * (roundHalfEven a s - a) = 2 ^ s ∨ 2 * (a - roundHalfEven a s) = 2 ^ s) →
          roundHalfEven a s / 2 ^ s % 2 = 0) := by
  have hpos : 0 < 2 ^ s := Nat.two_pow_pos _
  have hdm : 2 ^ s * (a / 2 ^ s) + a % 2 ^ s = a := Nat.div_add_mod a (2 ^ s)
  have hlt : a % 2 ^ s < 2 ^ s := Nat.mod_lt a hpos
  have hcomm : a / 2 ^ s * 2 ^ s = 2 ^ s * (a / 2 ^ s) := Nat.mul_comm _ _
  have hsucc : (a / 2 ^ s + 1) * 2 ^ s = 2 ^ s * (a / 2 ^ s) + 2 ^ s := by
    rw [Nat.add_mul, Nat.one_mul, hcomm]
  have hdiv0 : a / 2 ^ s * 2 ^ s / 2 ^ s = a / 2 ^ s := Nat.mul_div_cancel _ hpos
  have hdiv1 : (a / 2 ^ s + 1) * 2 ^ s / 2 ^ s = a / 2 ^ s + 1 := Nat.mul_div_cancel _ hpos
  unfold roundHalfEven
  simp only
  split
  · refine ⟨Dvd.intro_left _ rfl, ?_, ?_, ?_⟩
    · omega
    · omega
    · intro h; omega
  · split
    · refine ⟨Dvd.intro_left _ rfl, ?_, ?_, ?_⟩
      · omega
      · omega
      · intro h; omega
    · split
      · rename_i heven
        refine ⟨Dvd.intro_left _ rfl, ?_, ?_, ?_⟩
        · omega
        · omega
        · intro _; rw [hdiv0]; exact heven
      · rename_i hodd
        refine ⟨Dvd.intro_left _ rfl, ?_, ?_, ?_⟩
        · omega
        · omega
        · intro _; rw [hdiv1]; omega

theorem mulVolume_specTruncatedProduct (s : Int) (v : Volume) :
    specTruncatedProduct s v (mulVolume s v) :=
  ⟨f32Quantum (s.natAbs * v.num) v.shift, f32Round (s.natAbs * v.num) v.shift,
    f32Quantum_spacing (s.natAbs * v.num) v.shift,
    roundHalfEven_nearest (s.natAbs * v.num) (f32Quantum (s.natAbs * v.num) v.shift), rfl⟩

theorem mulVolume_exact_specTrunc (s : Int) (v : Volume) (ha : s.natAbs * v.num < 2 ^ 24)
    (hk : v.shift ≤ 149) : mulVolume s v = specTrunc (s * v.num) v.shift := by
  rw [mulVolume_exact s v ha hk]
  unfold specTrunc
  have habs : (s * (v.num : Int)).natAbs = s.natAbs * v.num := by
    rw [Int.natAbs_mul, Int.natAbs_ofNat]
  rw [habs]
  by_cases hs : s < 0
  · rcases Nat.eq_zero_or_pos v.num with h0 | hpos
    · simp [h0]
    · have hneg : s * (v.num : Int) < 0 :=
        Int.mul_neg_of_neg_of_pos hs (by exact_mod_cast hpos)
      simp [hs, hneg]
  · have hnn : ¬ s * (v.num : Int) < 0 := by
      have h1 : 0 ≤ s := by omega
      have h2 : (0 : Int) ≤ (v.num : Int) := Int.ofNat_nonneg _
      have := Int.mul_nonneg h1 h2
      omega
    simp [hs, hnn]

theorem roundHalfEven_ge (a s M : Nat) (hM : 2 ^ s ∣ M) (h : M ≤ a) :
    M ≤ roundHalfEven a s := by
  obtain ⟨m, rfl⟩ := hM
  have hpos : 0 < 2 ^ s := Nat.two_pow_pos _
  have hq : m ≤ a / 2 ^ s := (Nat.le_div_iff_mul_le hpos).mpr (by rw [Nat.mul_comm]; exact h)
  have hlow : 2 ^ s * m ≤ a / 2 ^ s * 2 ^ s := by
    rw [Nat.mul_comm]; exact Nat.mul_le_mul_right _ hq
  have hup : a / 2 ^ s * 2 ^ s ≤ (a / 2 ^ s + 1) * 2 ^ s :=
    Nat.mul_le_mul_right _ (Nat.le_succ _)
  unfold roundHalfEven
  simp only
  split
  · exact hlow
  · split
    · exact Nat.le_trans hlow hup
    · split
      · exact hlow
      · exact Nat.le_trans hlow hup

theorem mulVolume_abs_ge (s : Int) (v : Volume) (hs : s.natAbs ≤ 128)
    (hlo : 2 ^ v.shift ≤ v.num) (hhi : v.num ≤ 255 * 2 ^ v.shift) :
    s.natAbs ≤ (mulVolume s v).natAbs := by
  have hpos : 0 < 2 ^ v.shift := Nat.two_pow_pos _
  have hM : s.natAbs * 2 ^ v.shift ≤ s.natAbs * v.num := Nat.mul_le_mul_left _ hlo
  have hq : f32Quantum (s.natAbs * v.num) v.shift ≤ v.shift := by
    have h1 : s.natAbs * v.num ≤ (128 * 255) * 2 ^ v.shift := by
      calc s.natAbs * v.num ≤ 128 * (255 * 2 ^ v.shift) := Nat.mul_le_mul hs hhi
        _ = (128 * 255) * 2 ^ v.shift := (Nat.mul_assoc _ _ _).symm
    have hlt : s.natAbs * v.num < 2 ^ (24 + v.shift) := by
      rw [Nat.pow_add]
      have : (128 * 255) * 2 ^ v.shift < 2 ^ 24 * 2 ^ v.shift :=
        Nat.mul_lt_mul_of_pos_right (by decide) hpos
      omega
    exact (f32Quantum_spacing (s.natAbs * v.num) v.shift).2.2 v.shift (by omega) hlt
  have hr := roundHalfEven_ge (s.natAbs * v.num) (f32Quantum (s.natAbs * v.num) v.shift)
    (s.natAbs * 2 ^ v.shift) (Dvd.dvd.mul_left (Nat.pow_dvd_pow 2 hq) _) hM
  have hm : s.natAbs ≤ f32Round (s.natAbs * v.num) v.shift / 2 ^ v.shift :=
    (Nat.le_div_iff_mul_le hpos).mpr hr
  unfold mulVolume
  simp only
  generalize f32Round (s.natAbs * v.num) v.shift / 2 ^ v.shift = m at hm
  split <;> omega

theorem nearest_multiple_unique (P a q1 q2 : Nat) (hP : 0 < P)
    (h1a : 2 * (P * q1 - a) ≤ P) (h1b : 2 * (a - P * q1) ≤ P)
    (h1t : (2 * (P * q1 - a) = P ∨ 2 * (a - P * q1) = P) → q1 % 2 = 0)
    (h2a : 2 * (P * q2 - a) ≤ P) (h2b : 2 * (a - P * q2) ≤ P)
    (h2t : (2 * (P * q2 - a) = P ∨ 2 * (a - P * q2) = P) → q2 % 2 = 0) :
    q1 = q2 := by
  rcases Nat.lt_trichotomy q1 q2 with h | h | h
  · have hstep : P * q1 + P ≤ P * q2 := by
      have := Nat.mul_le_mul_left P (Nat.succ_le_of_lt h)
      rw [Nat.mul_succ] at this
      exact this
    have e1 : q1 % 2 = 0 := h1t (by omega)
    have e2 : q2 % 2 = 0 := h2t (by omega)
    have hq : q2 = q1 + 1 := by
      rcases Nat.lt_or_ge (q1 + 1) q2 with h3 | h3
      · have : P * q1 + P + P ≤ P * q2 := by
          have := Nat.mul_le_mul_left P (Nat.succ_le_of_lt h3)
          rw [Nat.mul_succ, Nat.mul_succ] at this
          exact this
        omega
      · omega
    omega
  · exact h
  · have hstep : P * q2 + P ≤ P * q1 := by
      have := Nat.mul_le_mul_left P (Nat.succ_le_of_lt h)
      rw [Nat.mul_succ] at this
      exact this
    have e1 : q1 % 2 = 0 := h1t (by omega)
    have e2 : q2 % 2 = 0 := h2t (by omega)
    have hq : q1 = q2 + 1 := by
      rcases Nat.lt_or_ge (q2 + 1) q1 with h3 | h3
      · have : P * q2 + P + P ≤ P * q1 := by
          have := Nat.mul_le_mul_left P (Nat.succ_le_of_lt h3)
          rw [Nat.mul_succ, Nat.mul_succ] at this
          exact this
        omega
      · omega
    omega

theorem specTruncatedProduct_unique (s : Int) (v : Volume) (t1 t2 : Int)
    (h1 : specTruncatedProduct s v t1) (h2 : specTruncatedProduct s v t2) : t1 = t2 := by
  obtain ⟨sh1, r1, ⟨ha1, hb1, hc1⟩, ⟨hd1, hn1a, hn1b, hn1t⟩, rfl⟩ := h1
  obtain ⟨sh2, r2, ⟨ha2, hb2, hc2⟩, ⟨hd2, hn2a, hn2b, hn2t⟩, rfl⟩ := h2
  have hsh : sh1 = sh2 := Nat.le_antisymm (hc1 sh2 ha2 hb2) (hc2 sh1 ha1 hb1)
  subst hsh
  obtain ⟨q1, rfl⟩ := hd1
  obtain ⟨q2, rfl⟩ := hd2
  have hP : 0 < 2 ^ sh1 := Nat.two_pow_pos _
  rw [Nat.mul_div_cancel_left _ hP] at hn1t hn2t
  have := nearest_multiple_unique (2 ^ sh1) (s.natAbs * v.num) q1 q2 hP hn1a hn1b hn1t
    hn2a hn2b hn2t
  subst this
  rfl

/-- C2 (amended): for every byte `b` in `[0,255]` and every volume `v` in `[0,1]`,
the byte the volume step produces is `clamp(t + 128, 0, 255)`, where `t` is the
one integer that `specTruncatedProduct` describes: the product `(b-128)*v` rounded
to single precision (to nearest, ties to even) and then cut off toward zero, not
rounded to nearest.  `t` lies in `[-128,127]`, and whenever the product is exact in
single precision (`|b-128| * num < 2 ^ 24` and `shift ≤ 149`, as for `v = 0.5`)
`t` is the exact product cut off toward zero. -/
theorem volumeStep_truncates (v : Volume) (b : Nat) (hb : b ≤ 255)
    (hv : v.num ≤ 2 ^ v.shift) :
    ∃ t : Int, specTruncatedProduct ((b : Int) - 128) v t
      ∧ (∀ t' : Int, specTruncatedProduct ((b : Int) - 128) v t' → t' = t)
      ∧ (volumeStep v b : Int) = specClamp (t + 128) 0 255
      ∧ -128 ≤ t ∧ t ≤ 127
      ∧ (((b : Int) - 128).natAbs * v.num < 2 ^ 24 → v.shift ≤ 149 →
          t = specTrunc (((b : Int) - 128) * v.num) v.shift) := by
  obtain ⟨h1, h2, h3⟩ := volumeStep_range v b hb hv
  refine ⟨mulVolume ((b : Int) - 128) v, mulVolume_specTruncatedProduct _ _,
    fun t' ht' => specTruncatedProduct_unique _ _ _ _ ht' (mulVolume_specTruncatedProduct _ _),
    ?_, h1, h2, mulVolume_exact_specTrunc _ _⟩
  rw [h3]
  unfold specClamp
  omega

/-- Witness for C2 (amended): byte 255 at volume one half. -/
theorem volumeStep_truncates_witness :
    ∃ t : Int, specTruncatedProduct (((255 : Nat) : Int) - 128) halfVolume t
      ∧ (∀ t' : Int, specTruncatedProduct (((255 : Nat) : Int) - 128) halfVolume t' → t' = t)
      ∧ (volumeStep halfVolume 255 : Int) = specClamp (t + 128) 0 255
      ∧ -128 ≤ t ∧ t ≤ 127
      ∧ ((((255 : Nat) : Int) - 128).natAbs * halfVolume.num < 2 ^ 24 →
          halfVolume.shift ≤ 149 →
          t = specTrunc ((((255 : Nat) : Int) - 128) * halfVolume.num) halfVolume.shift) :=
  volumeStep_truncates halfVolume 255 (by decide) (by decide)

/-- C3: with the configured volume `1.0` the volume step is the identity on every
byte in `[0,255]`, so `playFile` writes the stream's bytes unchanged: the
concatenation of its writes is the stream itself. -/
theorem volume_one_is_identity (K : Nat) (fuel : Nat) (file : File) (w : World)
    (hK : 1 ≤ K) (hvalid : file.valid = true) (hfuel : file.data.length < fuel)
    (hbytes : ∀ b ∈ file.data, b ≤ 255) :
    (∀ b : Nat, b ≤ 255 → volumeStep VOLUME b = b)
      ∧ ∃ (file' : File) (w' : World) (ws : List (List Nat)),
          playFile K VOLUME fuel file w = some (file', w')
          ∧ w'.i2s = w.i2s ++ ws.map I2SEvent.write ++ [I2SEvent.zeroDmaBuffer]
          ∧ ws.flatten = file.data := by
  refine ⟨volumeStep_one, _, _, (chunks K file.data).map (List.map (volumeStep VOLUME)),
    playFile_valid K VOLUME hK fuel file w hvalid hfuel, ?_, ?_⟩
  · simp [playedWorld, playedOutput, hvalid]
  · rw [← List.map_flatten, chunks_join K hK _ _ (le_refl _)]
    conv_rhs => rw [← List.map_id file.data]
    apply List.map_congr_left
    intro b hb
    simpa using volumeStep_one b (hbytes b hb)

/-- Witness for C3: the bytes of the spec's stream B with the configured buffer
size. -/
theorem volume_one_is_identity_witness :
    (1 ≤ BUFFER_SIZE ∧ ∀ b ∈ [0, 255, 128, 64], b ≤ 255)
      ∧ ((∀ b : Nat, b ≤ 255 → volumeStep VOLUME b = b)
        ∧ ∃ (file' : File) (w' : World) (ws : List (List Nat)),
            playFile BUFFER_SIZE VOLUME 5 ⟨Clip.kiwotsuke, true, [0, 255, 128, 64], 0, []⟩
              ⟨[], [], []⟩ = some (file', w')
            ∧ w'.i2s = ([] : List I2SEvent) ++ ws.map I2SEvent.write
                ++ [I2SEvent.zeroDmaBuffer]
            ∧ ws.flatten = [0, 255, 128, 64]) :=
  ⟨⟨by decide, by decide⟩,
    volume_one_is_identity BUFFER_SIZE 5 ⟨Clip.kiwotsuke, true, [0, 255, 128, 64], 0, []⟩
      ⟨[], [], []⟩ (by decide) rfl (by decide) (by decide)⟩

theorem getLast?_replicate_append (n K r : Nat) (hn : 0 < n ∨ r ≠ 0) :
    (List.replicate n K ++ (if r = 0 then [] else [r])).getLast?
      = some (if r = 0 then K else r) := by
  by_cases hr : r = 0
  · have hn' : 0 < n := by
      rcases hn with h | h
      · exact h
      · exact absurd hr h
    obtain ⟨m, rfl⟩ : ∃ m, n = m + 1 := ⟨n - 1, by omega⟩
    simp [hr, List.replicate_succ', List.getLast?_append]
  · simp [hr, List.getLast?_append]

/-- C4: for every valid stream of length `L ≥ 1` and every chunk size `K ≥ 1`,
`playFile` returns after exactly `ceil(L/K)` read-and-write cycles: it makes
`ceil(L/K)` writes, the write lengths are `K` repeated `L / K` times followed by
`L mod K` when that is not zero (so every write before the last has length `K`
and the last has length `L mod K`, or `K` when `K` divides `L`), and the reads
logged on the handle return exactly those lengths, followed by the one read that
returns 0: each write has the length that its read returned. -/
theorem playFile_cycles (K : Nat) (v : Volume) (fuel : Nat) (file : File) (w : World)
    (hK : 1 ≤ K) (hL : 1 ≤ file.data.length) (hvalid : file.valid = true)
    (hfuel : file.data.length < fuel) :
    ∃ (file' : File) (w' : World) (ws : List (List Nat)),
      playFile K v fuel file w = some (file', w')
      ∧ w'.i2s = w.i2s ++ ws.map I2SEvent.write ++ [I2SEvent.zeroDmaBuffer]
      ∧ file'.ops = file.ops ++ [FileOp.seek 0]
          ++ ws.map (fun c => FileOp.read K c.length) ++ [FileOp.read K 0]
      ∧ ws.length = (file.data.length + K - 1) / K
      ∧ ws.map List.length
          = List.replicate (file.data.length / K) K
            ++ (if file.data.length % K = 0 then [] else [file.data.length % K])
      ∧ (∀ i : Nat, i + 1 < ws.length → (ws.map List.length)[i]? = some K)
      ∧ (ws.map List.length).getLast?
          = some (if file.data.length % K = 0 then K else file.data.length % K) := by
  have hlen := chunks_lengths K hK _ file.data (le_refl _)
  have hlen' : ((chunks K file.data).map (List.map (volumeStep v))).map List.length
      = List.replicate (file.data.length / K) K
        ++ (if file.data.length % K = 0 then [] else [file.data.length % K]) := by
    rw [← hlen, List.map_map]
    apply List.map_congr_left
    intro c _
    simp
  have hcount : ((chunks K file.data).map (List.map (volumeStep v))).length
      = (file.data.length + K - 1) / K := by
    have := congrArg List.length hlen'
    rw [List.length_map] at this
    rw [this, ceil_div _ _ hK, List.length_append, List.length_replicate]
    split <;> simp
  refine ⟨_, _, (chunks K file.data).map (List.map (volumeStep v)),
    playFile_valid K v hK fuel file w hvalid hfuel, ?_, ?_, hcount, hlen', ?_, ?_⟩
  · simp [playedWorld, playedOutput, hvalid]
  · simp [playedFile, hvalid, List.map_map, Function.comp_def]
  · intro i hi
    rw [hcount, ceil_div _ _ hK] at hi
    rw [hlen']
    have hi' : i < file.data.length / K := by
      split at hi <;> omega
    rw [List.getElem?_append_left (by simpa using hi')]
    simp [List.getElem?_replicate, hi']
  · rw [hlen']
    apply getLast?_replicate_append
    by_cases hr : file.data.length % K = 0
    · left
      have := Nat.div_add_mod file.data.length K
      rw [hr] at this
      rcases Nat.eq_zero_or_pos (file.data.length / K) with h0 | h0
      · rw [h0] at this; omega
      · exact h0
    · right; exact hr

/-- Witness for C4: five bytes in chunks of two give writes of lengths 2, 2, 1. -/
theorem playFile_cycles_witness :
    ∃ (file' : File) (w' : World) (ws : List (List Nat)),
      playFile 2 ⟨1, 1⟩ 6 ⟨Clip.rei, true, [1, 2, 3, 4, 5], 0, []⟩ ⟨[], [], []⟩
        = some (file', w')
      ∧ w'.i2s = ([] : List I2SEvent) ++ ws.map I2SEvent.write ++ [I2SEvent.zeroDmaBuffer]
      ∧ file'.ops = ([] : List FileOp) ++ [FileOp.seek 0]
          ++ ws.map (fun c => FileOp.read 2 c.length) ++ [FileOp.read 2 0]
      ∧ ws.length = ([1, 2, 3, 4, 5].length + 2 - 1) / 2
      ∧ ws.map List.length
          = List.replicate ([1, 2, 3, 4, 5].length / 2) 2
            ++ (if [1, 2, 3, 4, 5].length % 2 = 0 then [] else [[1, 2, 3, 4, 5].length % 2])
      ∧ (∀ i : Nat, i + 1 < ws.length → (ws.map List.length)[i]? = some 2)
      ∧ (ws.map List.length).getLast?
          = some (if [1, 2, 3, 4, 5].length % 2 = 0 then 2 else [1, 2, 3, 4, 5].length % 2) :=
  playFile_cycles 2 ⟨1, 1⟩ 6 ⟨Clip.rei, true, [1, 2, 3, 4, 5], 0, []⟩ ⟨[], [], []⟩
    (by decide) (by decide) rfl (by decide)

/-! ## The dispatcher -/

theorem loop_eq (K : Nat) (v : Volume) (hK : 0 < K) (fuel : Nat) (st : State) (pins : Pins)
    (hk : st.kiritsuFile.data.length < fuel) (hw : st.kiwotsukeFile.data.length < fuel)
    (hr : st.reiFile.data.length < fuel) :
    loop K v fuel st pins = some (afterLoop K v st pins) := by
  unfold loop afterLoop afterRei afterKiwotsuke afterKiritsu
  by_cases c1 : pins.kiritsu = HIGH ∧ st.lastKiritsuState = LOW <;>
  by_cases c2 : pins.kiwotsuke = HIGH ∧ st.lastKiwotsukeState = LOW <;>
  by_cases c3 : pins.rei = HIGH ∧ st.lastReiState = LOW <;>
  simp [c1, c2, c3, pressKiritsu_eq K v hK fuel _ hk, pressKiwotsuke_eq K v hK fuel _ hw,
    pressRei_eq K v hK fuel _ hr, pressKiwotsuke_eq, pressRei_eq, hK, hw, hr]

theorem loop_ready (K : Nat) (v : Volume) (hK : 0 < K) (fuel : Nat) (st : State) (pins : Pins)
    (h : st.Ready fuel) : loop K v fuel st pins = some (afterLoop K v st pins) :=
  loop_eq K v hK fuel st pins (h Clip.kiritsu).2 (h Clip.kiwotsuke).2 (h Clip.rei).2

theorem playedFile_name (K : Nat) (file : File) : (playedFile K file).name = file.name := by
  unfold playedFile; split <;> rfl

theorem playedFile_data (K : Nat) (file : File) : (playedFile K file).data = file.data := by
  unfold playedFile; split <;> rfl

theorem playedFile_valid (K : Nat) (file : File) :
    (playedFile K file).valid = file.valid := by
  unfold playedFile; split <;> rfl

theorem playedFile_of_invalid (K : Nat) (file : File) (h : file.valid = false) :
    playedFile K file = file := by
  simp [playedFile, h]

theorem playedWorld_calls (K : Nat) (v : Volume) (file : File) (w : World) :
    (playedWorld K v file w).calls = w.calls ++ [file.name] := by
  unfold playedWorld; split <;> rfl

theorem playedWorld_i2s (K : Nat) (v : Volume) (file : File) (w : World) :
    (playedWorld K v file w).i2s
      = w.i2s ++ (if file.valid = false then [] else playedOutput K v file.data) := by
  unfold playedWorld; split <;> simp

theorem afterLoop_calls (K : Nat) (v : Volume) (st : State) (pins : Pins) :
    (afterLoop K v st pins).world.calls
      = st.world.calls
        ++ (if pins.kiritsu = HIGH ∧ st.lastKiritsuState = LOW
              then [st.kiritsuFile.name] else [])
        ++ (if pins.kiwotsuke = HIGH ∧ st.lastKiwotsukeState = LOW
              then [st.kiwotsukeFile.name] else [])
        ++ (if pins.rei = HIGH ∧ st.lastReiState = LOW then [st.reiFile.name] else []) := by
  unfold afterLoop afterRei afterKiwotsuke afterKiritsu
  by_cases c1 : pins.kiritsu = HIGH ∧ st.lastKiritsuState = LOW <;>
  by_cases c2 : pins.kiwotsuke = HIGH ∧ st.lastKiwotsukeState = LOW <;>
  by_cases c3 : pins.rei = HIGH ∧ st.lastReiState = LOW <;>
  simp [c1, c2, c3, playedWorld_calls, World.println]

theorem afterLoop_i2s (K : Nat) (v : Volume) (st : State) (pins : Pins) :
    (afterLoop K v st pins).world.i2s
      = st.world.i2s
        ++ (if (pins.kiritsu = HIGH ∧ st.lastKiritsuState = LOW)
                ∧ st.kiritsuFile.valid = true
              then playedOutput K v st.kiritsuFile.data else [])
        ++ (if (pins.kiwotsuke = HIGH ∧ st.lastKiwotsukeState = LOW)
                ∧ st.kiwotsukeFile.valid = true
              then playedOutput K v st.kiwotsukeFile.data else [])
        ++ (if (pins.rei = HIGH ∧ st.lastReiState = LOW) ∧ st.reiFile.valid = true
              then playedOutput K v st.reiFile.data else []) := by
  unfold afterLoop afterRei afterKiwotsuke afterKiritsu
  by_cases c1 : pins.kiritsu = HIGH ∧ st.lastKiritsuState = LOW <;>
  by_cases c2 : pins.kiwotsuke = HIGH ∧ st.lastKiwotsukeState = LOW <;>
  by_cases c3 : pins.rei = HIGH ∧ st.lastReiState = LOW <;>
  cases h1 : st.kiritsuFile.valid <;>
  cases h2 : st.kiwotsukeFile.valid <;>
  cases h3 : st.reiFile.valid <;>
  simp [c1, c2, c3, h1, h2, h3, playedWorld_i2s, World.println]

theorem afterLoop_file (K : Nat) (v : Volume) (st : State) (pins : Pins) (c : Clip) :
    (afterLoop K v st pins).file c
      = if pins.level c = HIGH ∧ st.lastLevel c = LOW then playedFile K (st.file c)
        else st.file c := by
  unfold afterLoop afterRei afterKiwotsuke afterKiritsu
  by_cases c1 : pins.kiritsu = HIGH ∧ st.lastKiritsuState = LOW <;>
  by_cases c2 : pins.kiwotsuke = HIGH ∧ st.lastKiwotsukeState = LOW <;>
  by_cases c3 : pins.rei = HIGH ∧ st.lastReiState = LOW <;>
  cases c <;>
  simp [c1, c2, c3, State.file, Pins.level, State.lastLevel]

theorem afterLoop_lastLevel (K : Nat) (v : Volume) (st : State) (pins : Pins) (c : Clip) :
    (afterLoop K v st pins).lastLevel c = pins.level c := by
  cases c <;> rfl

theorem afterLoop_ready (K : Nat) (v : Volume) (st : State) (pins : Pins) (fuel : Nat)
    (h : st.Ready fuel) : (afterLoop K v st pins).Ready fuel := by
  intro c
  rw [afterLoop_file]
  split
  · rw [playedFile_name, playedFile_data]; exact h c
  · exact h c

theorem count_rising (st : State) (pins : Pins) (h : ∀ c : Clip, (st.file c).name = c)
    (c : Clip) :
    ((if pins.kiritsu = HIGH ∧ st.lastKiritsuState = LOW
          then [st.kiritsuFile.name] else [])
      ++ (if pins.kiwotsuke = HIGH ∧ st.lastKiwotsukeState = LOW
          then [st.kiwotsukeFile.name] else [])
      ++ (if pins.rei = HIGH ∧ st.lastReiState = LOW then [st.reiFile.name] else [])).count c
      = if pins.level c = HIGH ∧ st.lastLevel c = LOW then 1 else 0 := by
  have hk : st.kiritsuFile.name = Clip.kiritsu := h Clip.kiritsu
  have hw : st.kiwotsukeFile.name = Clip.kiwotsuke := h Clip.kiwotsuke
  have hr : st.reiFile.name = Clip.rei := h Clip.rei
  rw [hk, hw, hr]
  by_cases c1 : pins.kiritsu = HIGH ∧ st.lastKiritsuState = LOW <;>
  by_cases c2 : pins.kiwotsuke = HIGH ∧ st.lastKiwotsukeState = LOW <;>
  by_cases c3 : pins.rei = HIGH ∧ st.lastReiState = LOW <;>
  cases c <;>
  simp [c1, c2, c3, Pins.level, State.lastLevel]

/-- C5: in one tick, for each of the three channels, `playFile` is entered for that
channel's file exactly once if the channel's remembered level is `LOW` and its
sampled level is `HIGH`, and not at all otherwise (falling edge, steady `LOW`,
steady `HIGH`). -/
theorem loop_triggers_on_rising_edge (K : Nat) (v : Volume) (fuel : Nat) (st : State)
    (pins : Pins) (hK : 1 ≤ K) (hready : st.Ready fuel) :
    ∃ (st' : State) (new : List Clip),
      loop K v fuel st pins = some st'
      ∧ st'.world.calls = st.world.calls ++ new
      ∧ (∀ c : Clip,
          new.count c = if pins.level c = HIGH ∧ st.lastLevel c = LOW then 1 else 0)
      ∧ (∀ c : Clip, pins.level c = LOW → new.count c = 0)
      ∧ (∀ c : Clip, st.lastLevel c = HIGH → new.count c = 0) := by
  have hcount := count_rising st pins (fun c => (hready c).1)
  refine ⟨afterLoop K v st pins, _, loop_ready K v hK fuel st pins hready, ?_, hcount, ?_, ?_⟩
  · rw [afterLoop_calls]; simp only [List.append_assoc]
  · intro c hc
    rw [hcount c, hc]; simp
  · intro c hc
    rw [hcount c, hc]; simp

theorem scenarioState_ready : scenarioState.Ready 5 := by
  intro c
  cases c <;> exact ⟨rfl, by decide⟩

/-- Witness for C5: the spec's scenario with only the first button sampled
`HIGH`. -/
theorem loop_triggers_on_rising_edge_witness :
    ∃ (st' : State) (new : List Clip),
      loop 2 halfVolume 5 scenarioState ⟨HIGH, LOW, LOW⟩ = some st'
      ∧ st'.world.calls = scenarioState.world.calls ++ new
      ∧ (∀ c : Clip,
          new.count c = if (⟨HIGH, LOW, LOW⟩ : Pins).level c = HIGH
            ∧ scenarioState.lastLevel c = LOW then 1 else 0)
      ∧ (∀ c : Clip, (⟨HIGH, LOW, LOW⟩ : Pins).level c = LOW → new.count c = 0)
      ∧ (∀ c : Clip, scenarioState.lastLevel c = HIGH → new.count c = 0) :=
  loop_triggers_on_rising_edge 2 halfVolume 5 scenarioState ⟨HIGH, LOW, LOW⟩ (by decide)
    scenarioState_ready

/-- C6: given an invalid handle, `playFile` returns at once, whatever the fuel: the
handle comes back unchanged (no seek, no read) and the I2S trace is unchanged (no
write, no buffer clear).  A tick returns and stores the sampled levels whatever
the validity of the handles, leaves invalid handles untouched, adds nothing to the
I2S trace when every triggered handle is invalid, and the next tick returns
too. -/
theorem invalid_handle_is_skipped (K : Nat) (v : Volume) (fuel0 fuel : Nat) (file : File)
    (w : World) (st : State) (pins : Pins) (hK : 1 ≤ K) (hinvalid : file.valid = false)
    (hready : st.Ready fuel) :
    (∃ w' : World, playFile K v fuel0 file w = some (file, w') ∧ w'.i2s = w.i2s)
      ∧ ∃ st' : State, loop K v fuel st pins = some st'
          ∧ (∀ c : Clip, st'.lastLevel c = pins.level c)
          ∧ (∀ c : Clip, (st.file c).valid = false → st'.file c = st.file c)
          ∧ ((∀ c : Clip, pins.level c = HIGH ∧ st.lastLevel c = LOW →
                (st.file c).valid = false) → st'.world.i2s = st.world.i2s)
          ∧ ∀ pins2 : Pins, ∃ st'' : State, loop K v fuel st' pins2 = some st''
              ∧ ∀ c : Clip, st''.lastLevel c = pins2.level c := by
  refine ⟨⟨playedWorld K v file w, ?_, ?_⟩, afterLoop K v st pins, loop_ready K v hK fuel st pins hready,
    afterLoop_lastLevel K v st pins, ?_, ?_, ?_⟩
  · rw [playFile_invalid K v fuel0 file w hinvalid, playedFile_of_invalid K file hinvalid]
  · rw [playedWorld_i2s]; simp [hinvalid]
  · intro c hc
    rw [afterLoop_file]
    split
    · exact playedFile_of_invalid K _ hc
    · rfl
  · intro h
    have hk := h Clip.kiritsu
    have hw := h Clip.kiwotsuke
    have hr := h Clip.rei
    simp only [Pins.level, State.lastLevel, State.file] at hk hw hr
    rw [afterLoop_i2s]
    by_cases c1 : pins.kiritsu = HIGH ∧ st.lastKiritsuState = LOW <;>
    by_cases c2 : pins.kiwotsuke = HIGH ∧ st.lastKiwotsukeState = LOW <;>
    by_cases c3 : pins.rei = HIGH ∧ st.lastReiState = LOW <;>
    simp [c1, c2, c3, hk, hw, hr]
  · intro pins2
    exact ⟨_, loop_ready K v hK fuel _ pins2 (afterLoop_ready K v st pins fuel hready),
      afterLoop_lastLevel K v _ pins2⟩

/-- Witness for C6: the scenario with the first handle closed, its button
pressed. -/
theorem invalid_handle_is_skipped_witness :
    (∃ w' : World,
        playFile 2 halfVolume 0 ⟨Clip.kiritsu, false, [], 0, []⟩ ⟨[], [], []⟩
          = some (⟨Clip.kiritsu, false, [], 0, []⟩, w')
        ∧ w'.i2s = (⟨[], [], []⟩ : World).i2s)
      ∧ ∃ st' : State,
          loop 2 halfVolume 5
            { scenarioState with kiritsuFile := ⟨Clip.kiritsu, false, [], 0, []⟩ }
            ⟨HIGH, LOW, LOW⟩ = some st'
          ∧ (∀ c : Clip, st'.lastLevel c = (⟨HIGH, LOW, LOW⟩ : Pins).level c)
          ∧ (∀ c : Clip,
              (({ scenarioState with kiritsuFile := ⟨Clip.kiritsu, false, [], 0, []⟩ }
                : State).file c).valid = false →
              st'.file c
                = ({ scenarioState with kiritsuFile := ⟨Clip.kiritsu, false, [], 0, []⟩ }
                    : State).file c)
          ∧ ((∀ c : Clip, (⟨HIGH, LOW, LOW⟩ : Pins).level c = HIGH
                ∧ ({ scenarioState with kiritsuFile := ⟨Clip.kiritsu, false, [], 0, []⟩ }
                    : State).lastLevel c = LOW →
                (({ scenarioState with kiritsuFile := ⟨Clip.kiritsu, false, [], 0, []⟩ }
                    : State).file c).valid = false) →
              st'.world.i2s
                = ({ scenarioState with kiritsuFile := ⟨Clip.kiritsu, false, [], 0, []⟩ }
                    : State).world.i2s)
          ∧ ∀ pins2 : Pins, ∃ st'' : State, loop 2 halfVolume 5 st' pins2 = some st''
              ∧ ∀ c : Clip, st''.lastLevel c = pins2.level c :=
  invalid_handle_is_skipped 2 halfVolume 0 5 ⟨Clip.kiritsu, false, [], 0, []⟩ ⟨[], [], []⟩
    { scenarioState with kiritsuFile := ⟨Clip.kiritsu, false, [], 0, []⟩ } ⟨HIGH, LOW, LOW⟩
    (by decide) rfl (by intro c; cases c <;> exact ⟨rfl, by decide⟩)

theorem afterLoop_count (K : Nat) (v : Volume) (st : State) (pins : Pins)
    (h : ∀ c : Clip, (st.file c).name = c) (c : Clip) :
    (afterLoop K v st pins).world.calls.count c
      = st.world.calls.count c
        + (if pins.level c = HIGH ∧ st.lastLevel c = LOW then 1 else 0) := by
  rw [afterLoop_calls]
  simp only [List.append_assoc, List.count_append]
  have := count_rising st pins h c
  simp only [List.append_assoc, List.count_append] at this
  omega

theorem chunks_head (K : Nat) (hK : 0 < K) (b : Nat) (rest : List Nat) :
    (chunks K (b :: rest)).head? = some (b :: rest.take (K - 1)) := by
  rw [chunks_cons K hK (b :: rest) (by simp)]
  obtain ⟨k, rfl⟩ : ∃ k, K = k + 1 := ⟨K - 1, by omega⟩
  simp

/-- C8: for every valid stream, two consecutive `playFile` calls on it both return
and append the same sequence of I2S calls; the first call leaves the cursor at the
end of the stream, the second call seeks back to 0 before its first read, and when
the stream is not empty each sequence begins with a write whose first byte is the
volume step of the stream's first byte. -/
theorem replay_starts_from_byte_zero (K : Nat) (v : Volume) (fuel : Nat) (file : File)
    (w : World) (hK : 1 ≤ K) (hvalid : file.valid = true)
    (hfuel : file.data.length < fuel) :
    ∃ (file1 file2 : File) (w1 w2 : World) (ws : List (List Nat)),
      playFile K v fuel file w = some (file1, w1)
      ∧ playFile K v fuel file1 w1 = some (file2, w2)
      ∧ file1.pos = file.data.length
      ∧ w1.i2s = w.i2s ++ ws.map I2SEvent.write ++ [I2SEvent.zeroDmaBuffer]
      ∧ w2.i2s = w1.i2s ++ ws.map I2SEvent.write ++ [I2SEvent.zeroDmaBuffer]
      ∧ (∃ ops : List FileOp, file2.ops = file1.ops ++ FileOp.seek 0 :: ops)
      ∧ (∀ (b : Nat) (rest : List Nat), file.data = b :: rest →
          ∃ tail : List Nat, ws.head? = some (volumeStep v b :: tail)) := by
  have h1 := playFile_valid K v hK fuel file w hvalid hfuel
  have hvalid1 : (playedFile K file).valid = true := by rw [playedFile_valid]; exact hvalid
  have hfuel1 : (playedFile K file).data.length < fuel := by rw [playedFile_data]; exact hfuel
  have h2 := playFile_valid K v hK fuel (playedFile K file) (playedWorld K v file w)
    hvalid1 hfuel1
  refine ⟨_, _, _, _, (chunks K file.data).map (List.map (volumeStep v)), h1, h2,
    ?_, ?_, ?_, ?_, ?_⟩
  · simp [playedFile, hvalid]
  · simp [playedWorld, playedOutput, hvalid]
  · rw [playedWorld_i2s, playedFile_data]
    simp [playedFile_valid, playedOutput, hvalid]
  · refine ⟨(chunks K (playedFile K file).data).map (fun c => FileOp.read K c.length)
      ++ [FileOp.read K 0], ?_⟩
    generalize playedFile K file = f1 at hvalid1
    simp [playedFile, hvalid1]
  · intro b rest hdata
    refine ⟨(rest.take (K - 1)).map (volumeStep v), ?_⟩
    rw [hdata, List.head?_map, chunks_head K hK b rest]
    simp

/-- Witness for C8: the first stream of the scenario, played twice. -/
theorem replay_starts_from_byte_zero_witness :
    ∃ (file1 file2 : File) (w1 w2 : World) (ws : List (List Nat)),
      playFile 2 halfVolume 5 scenarioState.kiritsuFile ⟨[], [], []⟩ = some (file1, w1)
      ∧ playFile 2 halfVolume 5 file1 w1 = some (file2, w2)
      ∧ file1.pos = scenarioState.kiritsuFile.data.length
      ∧ w1.i2s = ([] : List I2SEvent) ++ ws.map I2SEvent.write ++ [I2SEvent.zeroDmaBuffer]
      ∧ w2.i2s = w1.i2s ++ ws.map I2SEvent.write ++ [I2SEvent.zeroDmaBuffer]
      ∧ (∃ ops : List FileOp, file2.ops = file1.ops ++ FileOp.seek 0 :: ops)
      ∧ (∀ (b : Nat) (rest : List Nat), scenarioState.kiritsuFile.data = b :: rest →
          ∃ tail : List Nat, ws.head? = some (volumeStep halfVolume b :: tail)) :=
  replay_starts_from_byte_zero 2 halfVolume 5 scenarioState.kiritsuFile ⟨[], [], []⟩
    (by decide) rfl (by decide)

/-- C9: the spec's scenario.  With stream A = `[100,150,200,250]`, chunk size 2,
volume 0.5, all remembered levels `LOW` and only A's input sampled `HIGH`, one tick
returns and its I2S trace is exactly `write([114,139])`, `write([164,189])`,
buffer clear; these bytes are the ones the spec's transform gives; `playFile` was
entered for A only, and the handles of B and C are untouched. -/
theorem scenario_press_A (fuel : Nat) (hfuel : 4 < fuel) :
    ∃ st' : State, loop 2 halfVolume fuel scenarioState ⟨HIGH, LOW, LOW⟩ = some st'
      ∧ st'.world.i2s
          = [I2SEvent.write [114, 139], I2SEvent.write [164, 189], I2SEvent.zeroDmaBuffer]
      ∧ [100, 150, 200, 250].map (specTransform halfVolume) = [114, 139, 164, 189]
      ∧ st'.world.calls = [Clip.kiritsu]
      ∧ st'.kiwotsukeFile = scenarioState.kiwotsukeFile
      ∧ st'.reiFile = scenarioState.reiFile := by
  have h := loop_eq 2 halfVolume (by decide) fuel scenarioState ⟨HIGH, LOW, LOW⟩
    (by simpa [scenarioState] using hfuel) (by simpa [scenarioState] using hfuel)
    (by simpa [scenarioState] using hfuel)
  refine ⟨_, h, ?_, ?_, ?_, ?_, ?_⟩ <;> decide

/-- Witness for C9: fuel 5. -/
theorem scenario_press_A_witness :
    ∃ st' : State, loop 2 halfVolume 5 scenarioState ⟨HIGH, LOW, LOW⟩ = some st'
      ∧ st'.world.i2s
          = [I2SEvent.write [114, 139], I2SEvent.write [164, 189], I2SEvent.zeroDmaBuffer]
      ∧ [100, 150, 200, 250].map (specTransform halfVolume) = [114, 139, 164, 189]
      ∧ st'.world.calls = [Clip.kiritsu]
      ∧ st'.kiwotsukeFile = scenarioState.kiwotsukeFile
      ∧ st'.reiFile = scenarioState.reiFile :=
  scenario_press_A 5 (by decide)

/-- C10: for a valid stream of length 0, `playFile` returns as soon as it has any
fuel; its first read returns 0, so the handle logs the seek and that one read, no
write is made, and the I2S trace grows by exactly one buffer clear. -/
theorem playFile_empty_stream (K : Nat) (v : Volume) (fuel : Nat) (file : File) (w : World)
    (hvalid : file.valid = true) (hempty : file.data = []) (hfuel : 0 < fuel) :
    ∃ (file' : File) (w' : World), playFile K v fuel file w = some (file', w')
      ∧ file'.ops = file.ops ++ [FileOp.seek 0, FileOp.read K 0]
      ∧ w'.i2s = w.i2s ++ [I2SEvent.zeroDmaBuffer] := by
  obtain ⟨n, rfl⟩ : ∃ n, fuel = n + 1 := ⟨fuel - 1, by omega⟩
  refine ⟨{ file with pos := 0, ops := file.ops ++ [FileOp.seek 0, FileOp.read K 0] },
    { i2s := w.i2s ++ [I2SEvent.zeroDmaBuffer]
      serial := w.serial ++ [SerialMsg.playingCompleted]
      calls := w.calls ++ [file.name] }, ?_, rfl, rfl⟩
  simp [playFile, playLoop, File.read, File.seek, hvalid, hempty, World.println,
    World.i2sZeroDmaBuffer]

/-- Witness for C10: an empty resource, the configured buffer size and volume. -/
theorem playFile_empty_stream_witness :
    ∃ (file' : File) (w' : World),
      playFile BUFFER_SIZE VOLUME 1 ⟨Clip.rei, true, [], 0, []⟩ ⟨[], [], []⟩ = some (file', w')
      ∧ file'.ops = ([] : List FileOp) ++ [FileOp.seek 0, FileOp.read BUFFER_SIZE 0]
      ∧ w'.i2s = ([] : List I2SEvent) ++ [I2SEvent.zeroDmaBuffer] :=
  playFile_empty_stream BUFFER_SIZE VOLUME 1 ⟨Clip.rei, true, [], 0, []⟩ ⟨[], [], []⟩
    rfl rfl (by decide)

/-! ## Start-up -/

theorem setup_valid (boot : Boot) (hm : boot.mountOk = true) (hk : boot.kiritsu.valid = true)
    (hw : boot.kiwotsuke.valid = true) (hr : boot.rei.valid = true) :
    setup boot = SetupResult.completed
      { kiritsuFile := sdOpen boot Clip.kiritsu
        kiwotsukeFile := sdOpen boot Clip.kiwotsuke
        reiFile := sdOpen boot Clip.rei
        lastKiritsuState := LOW
        lastKiwotsukeState := LOW
        lastReiState := LOW
        world := ⟨[I2SEvent.zeroDmaBuffer], [], []⟩ }
      [SetupEvent.i2sDriverInstall SAMPLE_RATE 8 8 64, SetupEvent.i2sSetPin,
        SetupEvent.i2sSetDacMode, SetupEvent.setupCompleted] := by
  simp [setup, setupI2S, i2sDriverInstall, i2sSetPin, i2sSetDacMode, World.i2sZeroDmaBuffer,
    sdOpen, hm, hk, hw, hr]

theorem setup_mount_failed (boot : Boot) (hm : boot.mountOk = false) :
    setup boot = SetupResult.halted [SetupEvent.mountFailed] := by
  simp [setup, hm]

theorem setup_open_failed (boot : Boot) (hm : boot.mountOk = true)
    (h : boot.kiritsu.valid = false ∨ boot.kiwotsuke.valid = false ∨ boot.rei.valid = false) :
    setup boot = SetupResult.halted [SetupEvent.openFailed] := by
  simp [setup, sdOpen, hm, h]

theorem runTicks_spec (K : Nat) (v : Volume) (hK : 0 < K) (fuel : Nat) :
    ∀ (ts : List TickInput) (st : State), st.Ready fuel →
      ∃ st' : State, runTicks K v fuel st ts = some st' ∧ st'.Ready fuel
        ∧ (∀ c : Clip, st'.world.calls.count c
            = st.world.calls.count c
              + risingEdges (st.lastLevel c) (ts.map fun t => t.sampled.level c))
        ∧ (∀ c : Clip, st'.lastLevel c
            = ((ts.map fun t => t.sampled.level c).getLast?).getD (st.lastLevel c)) := by
  intro ts
  induction ts with
  | nil =>
    intro st h
    exact ⟨st, rfl, h, by simp [risingEdges], by simp⟩
  | cons t ts ih =>
    intro st h
    have h1 := loop_ready K v hK fuel st t.sampled h
    have hr1 := afterLoop_ready K v st t.sampled fuel h
    obtain ⟨st', hrun, hready, hcount, hlast⟩ := ih (afterLoop K v st t.sampled) hr1
    refine ⟨st', by simp [runTicks, h1, hrun], hready, ?_, ?_⟩
    · intro c
      rw [hcount c, afterLoop_count K v st t.sampled (fun c => (h c).1) c, afterLoop_lastLevel]
      simp only [List.map_cons, risingEdges]
      omega
    · intro c
      rw [hlast c, afterLoop_lastLevel]
      cases ts with
      | nil => simp
      | cons t2 ts2 =>
        simp only [List.map_cons]
        rw [List.getLast?_cons_cons, List.getLast?_eq_getLast _ (List.cons_ne_nil _ _)]
        rfl

theorem sdOpen_valid (boot : Boot) (hk : boot.kiritsu.valid = true)
    (hw : boot.kiwotsuke.valid = true) (hr : boot.rei.valid = true) (c : Clip) :
    (sdOpen boot c).valid = true ∧ (sdOpen boot c).name = c := by
  cases c <;> simp [sdOpen, hk, hw, hr]

theorem sketch_running (K : Nat) (v : Volume) (hK : 0 < K) (fuel : Nat) (boot : Boot)
    (inputs : List TickInput) (hm : boot.mountOk = true) (hk : boot.kiritsu.valid = true)
    (hw : boot.kiwotsuke.valid = true) (hr : boot.rei.valid = true)
    (hfuel : ∀ c : Clip, (sdOpen boot c).data.length < fuel) :
    ∃ st' : State, sketch K v fuel boot inputs = SketchResult.running st'
      [SetupEvent.i2sDriverInstall SAMPLE_RATE 8 8 64, SetupEvent.i2sSetPin,
        SetupEvent.i2sSetDacMode, SetupEvent.setupCompleted] := by
  have hs := setup_valid boot hm hk hw hr
  have hready : State.Ready
      { kiritsuFile := sdOpen boot Clip.kiritsu
        kiwotsukeFile := sdOpen boot Clip.kiwotsuke
        reiFile := sdOpen boot Clip.rei
        lastKiritsuState := LOW
        lastKiwotsukeState := LOW
        lastReiState := LOW
        world := ⟨[I2SEvent.zeroDmaBuffer], [], []⟩ } fuel := by
    intro c
    have h1 := (sdOpen_valid boot hk hw hr c).2
    have h2 := hfuel c
    cases c <;> exact ⟨h1, h2⟩
  obtain ⟨st', hrun, _⟩ := runTicks_spec K v hK fuel inputs _ hready
  exact ⟨st', by simp [sketch, hs, hrun]⟩

/-- C11 (the claim as stated fails): on the scenario's card, with every I2S driver
call of `setupI2S` returning `ESP_FAIL`, `setup` still returns with the globals
assigned, and the polling loop runs: a tick that samples the first button `HIGH`
enters `playFile` for it and makes its I2S calls. -/
theorem setup_completes_despite_i2s_failure :
    (scenarioBoot ESP_FAIL ESP_FAIL ESP_FAIL ESP_FAIL).driverInstall = ESP_FAIL
      ∧ ESP_FAIL ≠ ESP_OK
      ∧ setup (scenarioBoot ESP_FAIL ESP_FAIL ESP_FAIL ESP_FAIL)
          = SetupResult.completed
              { scenarioState with world := ⟨[I2SEvent.zeroDmaBuffer], [], []⟩ }
              [SetupEvent.i2sDriverInstall SAMPLE_RATE 8 8 64, SetupEvent.i2sSetPin,
                SetupEvent.i2sSetDacMode, SetupEvent.setupCompleted]
      ∧ ∃ (st : State) (log : List SetupEvent),
          sketch BUFFER_SIZE VOLUME 5 (scenarioBoot ESP_FAIL ESP_FAIL ESP_FAIL ESP_FAIL)
              [⟨⟨HIGH, LOW, LOW⟩, ⟨HIGH, LOW, LOW⟩⟩] = SketchResult.running st log
          ∧ st.world.calls = [Clip.kiritsu]
          ∧ st.world.i2s = [I2SEvent.zeroDmaBuffer, I2SEvent.write [100, 150, 200, 250],
              I2SEvent.zeroDmaBuffer] := by
  refine ⟨rfl, by decide, by decide, ?_⟩
  refine ⟨(afterLoop BUFFER_SIZE VOLUME
      { scenarioState with world := ⟨[I2SEvent.zeroDmaBuffer], [], []⟩ } ⟨HIGH, LOW, LOW⟩),
    [SetupEvent.i2sDriverInstall SAMPLE_RATE 8 8 64, SetupEvent.i2sSetPin,
      SetupEvent.i2sSetDacMode, SetupEvent.setupCompleted], ?_, ?_, ?_⟩ <;> decide

/-- C11 (amended): `setupI2S` drops the error codes of the I2S driver calls.  When
the card mounts and the three files open as valid handles, `setup` returns
whatever codes the driver install, the pin setup, the DAC setup and the buffer
clear report, with the same state and the same calls as when all four report
`ESP_OK`, and the polling loop is entered. -/
theorem setup_ignores_i2s_errors (boot : Boot) (e1 e2 e3 e4 : Int) (K : Nat) (v : Volume)
    (fuel : Nat) (inputs : List TickInput) (hK : 1 ≤ K) (hm : boot.mountOk = true)
    (hk : boot.kiritsu.valid = true) (hw : boot.kiwotsuke.valid = true)
    (hr : boot.rei.valid = true) (hfuel : ∀ c : Clip, (sdOpen boot c).data.length < fuel) :
    ∃ (st st' : State) (log : List SetupEvent),
      setup { boot with driverInstall := e1, setPin := e2, setDacMode := e3,
                        zeroDmaBuffer := e4 } = SetupResult.completed st log
      ∧ setup { boot with driverInstall := ESP_OK, setPin := ESP_OK, setDacMode := ESP_OK,
                          zeroDmaBuffer := ESP_OK } = SetupResult.completed st log
      ∧ sketch K v fuel
          { boot with driverInstall := e1, setPin := e2, setDacMode := e3,
                      zeroDmaBuffer := e4 } inputs = SketchResult.running st' log := by
  obtain ⟨st', hrun⟩ := sketch_running K v hK fuel
    { boot with driverInstall := e1, setPin := e2, setDacMode := e3, zeroDmaBuffer := e4 }
    inputs hm hk hw hr hfuel
  exact ⟨_, st', _,
    setup_valid { boot with driverInstall := e1, setPin := e2, setDacMode := e3,
                            zeroDmaBuffer := e4 } hm hk hw hr,
    setup_valid { boot with driverInstall := ESP_OK, setPin := ESP_OK, setDacMode := ESP_OK,
                            zeroDmaBuffer := ESP_OK } hm hk hw hr,
    hrun⟩

/-- Witness for C11 (amended): the scenario's card, every driver call failing. -/
theorem setup_ignores_i2s_errors_witness :
    ∃ (st st' : State) (log : List SetupEvent),
      setup { scenarioBoot ESP_OK ESP_OK ESP_OK ESP_OK with
                driverInstall := ESP_FAIL, setPin := ESP_FAIL, setDacMode := ESP_FAIL,
                zeroDmaBuffer := ESP_FAIL } = SetupResult.completed st log
      ∧ setup { scenarioBoot ESP_OK ESP_OK ESP_OK ESP_OK with
                  driverInstall := ESP_OK, setPin := ESP_OK, setDacMode := ESP_OK,
                  zeroDmaBuffer := ESP_OK } = SetupResult.completed st log
      ∧ sketch BUFFER_SIZE VOLUME 5
          { scenarioBoot ESP_OK ESP_OK ESP_OK ESP_OK with
              driverInstall := ESP_FAIL, setPin := ESP_FAIL, setDacMode := ESP_FAIL,
              zeroDmaBuffer := ESP_FAIL }
          [⟨⟨HIGH, LOW, LOW⟩, ⟨HIGH, LOW, LOW⟩⟩] = SketchResult.running st' log :=
  setup_ignores_i2s_errors (scenarioBoot ESP_OK ESP_OK ESP_OK ESP_OK) ESP_FAIL ESP_FAIL
    ESP_FAIL ESP_FAIL BUFFER_SIZE VOLUME 5 [⟨⟨HIGH, LOW, LOW⟩, ⟨HIGH, LOW, LOW⟩⟩] (by decide)
    rfl rfl rfl rfl (by intro c; cases c <;> decide)

/-- C12: `setup` returns (having configured the I2S driver, after which the
polling loop runs) exactly when the mount succeeds and the three files open as
valid handles, and then every handle of the state is valid.  Otherwise `setup`
stays in a `while (1);` loop having made no I2S call, and no tick runs. -/
theorem setup_completes_iff (boot : Boot) (K : Nat) (v : Volume) (fuel : Nat)
    (inputs : List TickInput) :
    ((∃ (st : State) (log : List SetupEvent), setup boot = SetupResult.completed st log)
        ↔ (boot.mountOk = true ∧ boot.kiritsu.valid = true ∧ boot.kiwotsuke.valid = true
            ∧ boot.rei.valid = true))
      ∧ (∀ (st : State) (log : List SetupEvent), setup boot = SetupResult.completed st log →
          (∀ c : Clip, (st.file c).valid = true ∧ (st.file c).name = c)
          ∧ log = [SetupEvent.i2sDriverInstall SAMPLE_RATE 8 8 64, SetupEvent.i2sSetPin,
              SetupEvent.i2sSetDacMode, SetupEvent.setupCompleted]
          ∧ st.world.i2s = [I2SEvent.zeroDmaBuffer]
          ∧ (1 ≤ K → (∀ c : Clip, (st.file c).data.length < fuel) →
              ∃ st' : State, sketch K v fuel boot inputs = SketchResult.running st' log))
      ∧ (¬ (boot.mountOk = true ∧ boot.kiritsu.valid = true ∧ boot.kiwotsuke.valid = true
            ∧ boot.rei.valid = true) →
          ∃ log : List SetupEvent, setup boot = SetupResult.halted log
            ∧ (log = [SetupEvent.mountFailed] ∨ log = [SetupEvent.openFailed])
            ∧ sketch K v fuel boot inputs = SketchResult.halted log) := by
  cases hm : boot.mountOk with
  | false =>
    have hs := setup_mount_failed boot hm
    refine ⟨?_, ?_, ?_⟩
    · simp [hs]
    · intro st log h; rw [hs] at h; cases h
    · intro _
      exact ⟨_, hs, Or.inl rfl, by simp [sketch, hs]⟩
  | true =>
    by_cases hv : boot.kiritsu.valid = true ∧ boot.kiwotsuke.valid = true
        ∧ boot.rei.valid = true
    · obtain ⟨hk, hw, hr⟩ := hv
      have hs := setup_valid boot hm hk hw hr
      refine ⟨?_, ?_, ?_⟩
      · simp [hs, hk, hw, hr]
      · intro st log h
        rw [hs] at h
        injection h with h1 h2
        subst h1 h2
        refine ⟨?_, rfl, rfl, ?_⟩
        · intro c
          have := sdOpen_valid boot hk hw hr c
          cases c <;> exact this
        · intro hK hfuel
          exact sketch_running K v hK fuel boot inputs hm hk hw hr
            (fun c => by have := hfuel c; cases c <;> exact this)
      · intro hn
        exact absurd ⟨rfl, hk, hw, hr⟩ hn
    · have hor : boot.kiritsu.valid = false ∨ boot.kiwotsuke.valid = false
          ∨ boot.rei.valid = false := by
        cases h1 : boot.kiritsu.valid <;> cases h2 : boot.kiwotsuke.valid <;>
          cases h3 : boot.rei.valid <;> simp_all
      have hs := setup_open_failed boot hm hor
      refine ⟨?_, ?_, ?_⟩
      · constructor
        · rintro ⟨st, log, h⟩
          rw [hs] at h; cases h
        · rintro ⟨_, h1, h2, h3⟩
          exact absurd ⟨h1, h2, h3⟩ hv
      · intro st log h; rw [hs] at h; cases h
      · intro _
        exact ⟨_, hs, Or.inr rfl, by simp [sketch, hs]⟩

/-- Witness for C12: the scenario's card with the second file missing. -/
theorem setup_completes_iff_witness :
    ((∃ (st : State) (log : List SetupEvent),
          setup { scenarioBoot ESP_OK ESP_OK ESP_OK ESP_OK with
                    kiwotsuke := ⟨Clip.kiwotsuke, false, [], 0, []⟩ }
            = SetupResult.completed st log)
        ↔ (({ scenarioBoot ESP_OK ESP_OK ESP_OK ESP_OK with
                kiwotsuke := ⟨Clip.kiwotsuke, false, [], 0, []⟩ } : Boot).mountOk = true
            ∧ ({ scenarioBoot ESP_OK ESP_OK ESP_OK ESP_OK with
                kiwotsuke := ⟨Clip.kiwotsuke, false, [], 0, []⟩ } : Boot).kiritsu.valid = true
            ∧ ({ scenarioBoot ESP_OK ESP_OK ESP_OK ESP_OK with
                kiwotsuke := ⟨Clip.kiwotsuke, false, [], 0, []⟩ } : Boot).kiwotsuke.valid = true
            ∧ ({ scenarioBoot ESP_OK ESP_OK ESP_OK ESP_OK with
                kiwotsuke := ⟨Clip.kiwotsuke, false, [], 0, []⟩ } : Boot).rei.valid = true))
      ∧ ∃ log : List SetupEvent,
          setup { scenarioBoot ESP_OK ESP_OK ESP_OK ESP_OK with
                    kiwotsuke := ⟨Clip.kiwotsuke, false, [], 0, []⟩ }
            = SetupResult.halted log
          ∧ (log = [SetupEvent.mountFailed] ∨ log = [SetupEvent.openFailed])
          ∧ sketch BUFFER_SIZE VOLUME 5
              { scenarioBoot ESP_OK ESP_OK ESP_OK ESP_OK with
                  kiwotsuke := ⟨Clip.kiwotsuke, false, [], 0, []⟩ }
              [⟨⟨HIGH, HIGH, LOW⟩, ⟨HIGH, HIGH, LOW⟩⟩] = SketchResult.halted log :=
  ⟨(setup_completes_iff
      { scenarioBoot ESP_OK ESP_OK ESP_OK ESP_OK with
          kiwotsuke := ⟨Clip.kiwotsuke, false, [], 0, []⟩ }
      BUFFER_SIZE VOLUME 5 [⟨⟨HIGH, HIGH, LOW⟩, ⟨HIGH, HIGH, LOW⟩⟩]).1,
    (setup_completes_iff
      { scenarioBoot ESP_OK ESP_OK ESP_OK ESP_OK with
          kiwotsuke := ⟨Clip.kiwotsuke, false, [], 0, []⟩ }
      BUFFER_SIZE VOLUME 5 [⟨⟨HIGH, HIGH, LOW⟩, ⟨HIGH, HIGH, LOW⟩⟩]).2.2 (by decide)⟩

/-! ## Several edges, many ticks -/

theorem playedOutput_shape (K : Nat) (v : Volume) (data : List Nat) :
    playedOutput K v data
      = ((chunks K data).map (List.map (volumeStep v))).map I2SEvent.write
        ++ [I2SEvent.zeroDmaBuffer] := by
  simp [playedOutput, List.map_map, Function.comp_def]

theorem afterLoop_calls_filter (K : Nat) (v : Volume) (st : State) (pins : Pins)
    (h : ∀ c : Clip, (st.file c).name = c) :
    (afterLoop K v st pins).world.calls
      = st.world.calls ++ [Clip.kiritsu, Clip.kiwotsuke, Clip.rei].filter (rising st pins) := by
  have hk : st.kiritsuFile.name = Clip.kiritsu := h Clip.kiritsu
  have hw : st.kiwotsukeFile.name = Clip.kiwotsuke := h Clip.kiwotsuke
  have hr : st.reiFile.name = Clip.rei := h Clip.rei
  rw [afterLoop_calls, hk, hw, hr]
  by_cases c1 : pins.kiritsu = HIGH ∧ st.lastKiritsuState = LOW <;>
  by_cases c2 : pins.kiwotsuke = HIGH ∧ st.lastKiwotsukeState = LOW <;>
  by_cases c3 : pins.rei = HIGH ∧ st.lastReiState = LOW <;>
  simp [c1, c2, c3, rising, Pins.level, State.lastLevel, List.filter]

theorem afterLoop_i2s_filter (K : Nat) (v : Volume) (st : State) (pins : Pins)
    (h : ∀ c : Clip, rising st pins c = true → (st.file c).valid = true) :
    (afterLoop K v st pins).world.i2s
      = st.world.i2s
        ++ (([Clip.kiritsu, Clip.kiwotsuke, Clip.rei].filter (rising st pins)).map
            fun c => playedOutput K v (st.file c).data).flatten := by
  have hk : (pins.kiritsu = HIGH ∧ st.lastKiritsuState = LOW) →
      st.kiritsuFile.valid = true := fun hc =>
    h Clip.kiritsu (by simpa [rising, Pins.level, State.lastLevel] using hc)
  have hw : (pins.kiwotsuke = HIGH ∧ st.lastKiwotsukeState = LOW) →
      st.kiwotsukeFile.valid = true := fun hc =>
    h Clip.kiwotsuke (by simpa [rising, Pins.level, State.lastLevel] using hc)
  have hr : (pins.rei = HIGH ∧ st.lastReiState = LOW) → st.reiFile.valid = true := fun hc =>
    h Clip.rei (by simpa [rising, Pins.level, State.lastLevel] using hc)
  rw [afterLoop_i2s]
  by_cases c1 : pins.kiritsu = HIGH ∧ st.lastKiritsuState = LOW
  · have v1 := hk c1
    by_cases c2 : pins.kiwotsuke = HIGH ∧ st.lastKiwotsukeState = LOW
    · have v2 := hw c2
      by_cases c3 : pins.rei = HIGH ∧ st.lastReiState = LOW
      · have v3 := hr c3
        simp [c1, c2, c3, v1, v2, v3, rising, Pins.level, State.lastLevel, State.file,
          List.filter]
      · simp [c1, c2, c3, v1, v2, rising, Pins.level, State.lastLevel, State.file,
          List.filter]
    · by_cases c3 : pins.rei = HIGH ∧ st.lastReiState = LOW
      · have v3 := hr c3
        simp [c1, c2, c3, v1, v3, rising, Pins.level, State.lastLevel, State.file,
          List.filter]
      · simp [c1, c2, c3, v1, rising, Pins.level, State.lastLevel, State.file, List.filter]
  · by_cases c2 : pins.kiwotsuke = HIGH ∧ st.lastKiwotsukeState = LOW
    · have v2 := hw c2
      by_cases c3 : pins.rei = HIGH ∧ st.lastReiState = LOW
      · have v3 := hr c3
        simp [c1, c2, c3, v2, v3, rising, Pins.level, State.lastLevel, State.file,
          List.filter]
      · simp [c1, c2, c3, v2, rising, Pins.level, State.lastLevel, State.file, List.filter]
    · by_cases c3 : pins.rei = HIGH ∧ st.lastReiState = LOW
      · have v3 := hr c3
        simp [c1, c2, c3, v3, rising, Pins.level, State.lastLevel, State.file, List.filter]
      · simp [c1, c2, c3, rising, Pins.level, State.lastLevel, State.file, List.filter]

/-- C13: in a tick in which the streams of the channels that show a rising edge
(remembered `LOW`, sampled `HIGH`) are valid, whatever the other handles are,
`playFile` is entered once for each of those channels, in the fixed order kiritsu,
kiwotsuke, rei, and the tick's I2S trace is the concatenation, in that order, of
what `playFile` alone appends for each of them: writes followed by one buffer
clear.  So for any two rising channels the earlier one's writes and clear all
precede the later one's first write, and no detected edge is dropped. -/
theorem same_tick_edges_in_order (K : Nat) (v : Volume) (fuel : Nat) (st : State)
    (pins : Pins) (hK : 1 ≤ K) (hready : st.Ready fuel)
    (hvalid : ∀ c : Clip, rising st pins c = true → (st.file c).valid = true) :
    ∃ (st' : State) (out : Clip → List I2SEvent),
      loop K v fuel st pins = some st'
      ∧ (∀ (c : Clip) (w : World), rising st pins c = true → ∃ (file' : File) (w' : World),
          playFile K v fuel (st.file c) w = some (file', w') ∧ w'.i2s = w.i2s ++ out c)
      ∧ (∀ c : Clip, rising st pins c = true → ∃ ws : List (List Nat),
          out c = ws.map I2SEvent.write ++ [I2SEvent.zeroDmaBuffer])
      ∧ st'.world.calls
          = st.world.calls ++ [Clip.kiritsu, Clip.kiwotsuke, Clip.rei].filter (rising st pins)
      ∧ st'.world.i2s
          = st.world.i2s
            ++ (([Clip.kiritsu, Clip.kiwotsuke, Clip.rei].filter (rising st pins)).map
                out).flatten
      ∧ (rising st pins Clip.kiritsu = true → rising st pins Clip.kiwotsuke = true →
          ∃ rest : List I2SEvent,
            st'.world.i2s = st.world.i2s ++ out Clip.kiritsu ++ out Clip.kiwotsuke ++ rest)
      ∧ (rising st pins Clip.kiritsu = true → rising st pins Clip.rei = true →
          ∃ mid : List I2SEvent,
            st'.world.i2s = st.world.i2s ++ out Clip.kiritsu ++ mid ++ out Clip.rei)
      ∧ (rising st pins Clip.kiwotsuke = true → rising st pins Clip.rei = true →
          ∃ pre : List I2SEvent,
            st'.world.i2s = st.world.i2s ++ pre ++ out Clip.kiwotsuke ++ out Clip.rei) := by
  refine ⟨afterLoop K v st pins, fun c => playedOutput K v (st.file c).data,
    loop_ready K v hK fuel st pins hready, ?_, ?_,
    afterLoop_calls_filter K v st pins (fun c => (hready c).1),
    afterLoop_i2s_filter K v st pins hvalid, ?_, ?_, ?_⟩
  · intro c w hc
    refine ⟨_, _, playFile_valid K v hK fuel (st.file c) w (hvalid c hc) (hready c).2, ?_⟩
    simp [playedWorld, hvalid c hc]
  · intro c _
    exact ⟨_, playedOutput_shape K v _⟩
  · intro h1 h2
    rw [afterLoop_i2s_filter K v st pins hvalid]
    refine ⟨if rising st pins Clip.rei = true then playedOutput K v (st.file Clip.rei).data
      else [], ?_⟩
    by_cases h3 : rising st pins Clip.rei = true <;>
    simp [List.filter, h1, h2, h3]
  · intro h1 h3
    rw [afterLoop_i2s_filter K v st pins hvalid]
    refine ⟨if rising st pins Clip.kiwotsuke = true
      then playedOutput K v (st.file Clip.kiwotsuke).data else [], ?_⟩
    by_cases h2 : rising st pins Clip.kiwotsuke = true <;>
    simp [List.filter, h1, h2, h3]
  · intro h2 h3
    rw [afterLoop_i2s_filter K v st pins hvalid]
    refine ⟨if rising st pins Clip.kiritsu = true
      then playedOutput K v (st.file Clip.kiritsu).data else [], ?_⟩
    by_cases h1 : rising st pins Clip.kiritsu = true <;>
    simp [List.filter, h1, h2, h3]

/-- Witness for C13: the scenario with the second handle invalid and idle, the
first and third buttons pressed together. -/
theorem same_tick_edges_in_order_witness :
    ∃ (st' : State) (out : Clip → List I2SEvent),
      loop 2 halfVolume 5 secondClosedState ⟨HIGH, LOW, HIGH⟩ = some st'
      ∧ (∀ (c : Clip) (w : World), rising secondClosedState ⟨HIGH, LOW, HIGH⟩ c = true →
          ∃ (file' : File) (w' : World),
            playFile 2 halfVolume 5 (secondClosedState.file c) w = some (file', w')
            ∧ w'.i2s = w.i2s ++ out c)
      ∧ (∀ c : Clip, rising secondClosedState ⟨HIGH, LOW, HIGH⟩ c = true →
          ∃ ws : List (List Nat), out c = ws.map I2SEvent.write ++ [I2SEvent.zeroDmaBuffer])
      ∧ st'.world.calls
          = secondClosedState.world.calls
            ++ [Clip.kiritsu, Clip.kiwotsuke, Clip.rei].filter
                (rising secondClosedState ⟨HIGH, LOW, HIGH⟩)
      ∧ st'.world.i2s
          = secondClosedState.world.i2s
            ++ (([Clip.kiritsu, Clip.kiwotsuke, Clip.rei].filter
                  (rising secondClosedState ⟨HIGH, LOW, HIGH⟩)).map out).flatten
      ∧ (rising secondClosedState ⟨HIGH, LOW, HIGH⟩ Clip.kiritsu = true →
          rising secondClosedState ⟨HIGH, LOW, HIGH⟩ Clip.kiwotsuke = true →
          ∃ rest : List I2SEvent,
            st'.world.i2s
              = secondClosedState.world.i2s ++ out Clip.kiritsu ++ out Clip.kiwotsuke ++ rest)
      ∧ (rising secondClosedState ⟨HIGH, LOW, HIGH⟩ Clip.kiritsu = true →
          rising secondClosedState ⟨HIGH, LOW, HIGH⟩ Clip.rei = true →
          ∃ mid : List I2SEvent,
            st'.world.i2s
              = secondClosedState.world.i2s ++ out Clip.kiritsu ++ mid ++ out Clip.rei)
      ∧ (rising secondClosedState ⟨HIGH, LOW, HIGH⟩ Clip.kiwotsuke = true →
          rising secondClosedState ⟨HIGH, LOW, HIGH⟩ Clip.rei = true →
          ∃ pre : List I2SEvent,
            st'.world.i2s
              = secondClosedState.world.i2s ++ pre ++ out Clip.kiwotsuke ++ out Clip.rei) :=
  same_tick_edges_in_order 2 halfVolume 5 secondClosedState ⟨HIGH, LOW, HIGH⟩ (by decide)
    (by intro c; cases c <;> exact ⟨rfl, by decide⟩)
    (by
      intro c hc
      cases c
      · rfl
      · exact absurd hc (by decide)
      · rfl)

theorem risingEdges_high (l : List Int) (h : ∀ x ∈ l, x = HIGH) : risingEdges HIGH l = 0 := by
  induction l with
  | nil => rfl
  | cons x l ih =>
    have hx : x = HIGH := h x (List.mem_cons_self _ _)
    subst hx
    have := ih (fun y hy => h y (List.mem_cons_of_mem _ hy))
    simp [risingEdges, this]

theorem risingEdges_held (l : List Int) (hne : l ≠ []) (h : ∀ x ∈ l, x = HIGH) :
    risingEdges LOW l = 1 := by
  cases l with
  | nil => exact absurd rfl hne
  | cons x l =>
    have hx : x = HIGH := h x (List.mem_cons_self _ _)
    subst hx
    have := risingEdges_high l (fun y hy => h y (List.mem_cons_of_mem _ hy))
    simp [risingEdges, this]

theorem runTicks_append (K : Nat) (v : Volume) (fuel : Nat) :
    ∀ (pre post : List TickInput) (st : State),
      runTicks K v fuel st (pre ++ post)
        = (runTicks K v fuel st pre).bind fun mid => runTicks K v fuel mid post := by
  intro pre
  induction pre with
  | nil => intro post st; simp [runTicks]
  | cons t pre ih =>
    intro post st
    simp only [List.cons_append, runTicks]
    cases loop K v fuel st t.sampled with
    | none => rfl
    | some st1 => simp [ih]

/-- C14: starting with all three remembered levels `LOW`, for every finite sequence
of ticks the run returns, and for each channel the number of `playFile` entries it
adds equals the number of `LOW → HIGH` steps in that channel's sampled levels read
after an initial `LOW`; a channel sampled `HIGH` in every tick of a non-empty run
is entered exactly once; and after every tick of the run the remembered levels are
the levels sampled in that tick. -/
theorem invocations_count_rising_edges (K : Nat) (v : Volume) (fuel : Nat) (st : State)
    (ts : List TickInput) (hK : 1 ≤ K) (hready : st.Ready fuel)
    (hinit : ∀ c : Clip, st.lastLevel c = LOW) :
    ∃ st' : State, runTicks K v fuel st ts = some st'
      ∧ (∀ c : Clip, st'.world.calls.count c
          = st.world.calls.count c + risingEdges LOW (ts.map fun t => t.sampled.level c))
      ∧ (∀ c : Clip, ts ≠ [] → (∀ t ∈ ts, t.sampled.level c = HIGH) →
          st'.world.calls.count c = st.world.calls.count c + 1)
      ∧ (∀ (pre post : List TickInput) (t : TickInput), ts = pre ++ t :: post →
          ∃ mid : State, runTicks K v fuel st (pre ++ [t]) = some mid
            ∧ runTicks K v fuel mid post = some st'
            ∧ ∀ c : Clip, mid.lastLevel c = t.sampled.level c) := by
  obtain ⟨st', hrun, _, hcount, hlast⟩ := runTicks_spec K v hK fuel ts st hready
  have hcount' : ∀ c : Clip, st'.world.calls.count c
      = st.world.calls.count c + risingEdges LOW (ts.map fun t => t.sampled.level c) := by
    intro c
    rw [hcount c, hinit c]
  refine ⟨st', hrun, hcount', ?_, ?_⟩
  · intro c hne hall
    rw [hcount' c, risingEdges_held]
    · simpa using hne
    · intro x hx
      obtain ⟨t, ht, rfl⟩ := List.mem_map.mp hx
      exact hall t ht
  · intro pre post t hts
    obtain ⟨mid, hmid, _, _, hmidlast⟩ := runTicks_spec K v hK fuel (pre ++ [t]) st hready
    refine ⟨mid, hmid, ?_, ?_⟩
    · have happ := runTicks_append K v fuel (pre ++ [t]) post st
      rw [List.append_assoc, List.singleton_append, ← hts, hrun, hmid] at happ
      simpa using happ.symm
    · intro c
      rw [hmidlast c]
      simp

/-- Witness for C14: on the scenario, the first button held over three ticks, the
second pressed, released and pressed again. -/
theorem invocations_count_rising_edges_witness :
    ∃ st' : State,
      runTicks 2 halfVolume 5 scenarioState
          [⟨⟨HIGH, HIGH, LOW⟩, ⟨HIGH, LOW, LOW⟩⟩, ⟨⟨HIGH, LOW, LOW⟩, ⟨HIGH, HIGH, LOW⟩⟩,
            ⟨⟨HIGH, HIGH, LOW⟩, ⟨HIGH, HIGH, LOW⟩⟩] = some st'
      ∧ (∀ c : Clip, st'.world.calls.count c
          = scenarioState.world.calls.count c
            + risingEdges LOW
                (([⟨⟨HIGH, HIGH, LOW⟩, ⟨HIGH, LOW, LOW⟩⟩, ⟨⟨HIGH, LOW, LOW⟩, ⟨HIGH, HIGH, LOW⟩⟩,
                    ⟨⟨HIGH, HIGH, LOW⟩, ⟨HIGH, HIGH, LOW⟩⟩] : List TickInput).map
                  fun t => t.sampled.level c))
      ∧ (∀ c : Clip,
          ([⟨⟨HIGH, HIGH, LOW⟩, ⟨HIGH, LOW, LOW⟩⟩, ⟨⟨HIGH, LOW, LOW⟩, ⟨HIGH, HIGH, LOW⟩⟩,
              ⟨⟨HIGH, HIGH, LOW⟩, ⟨HIGH, HIGH, LOW⟩⟩] : List TickInput) ≠ [] →
          (∀ t ∈ ([⟨⟨HIGH, HIGH, LOW⟩, ⟨HIGH, LOW, LOW⟩⟩,
              ⟨⟨HIGH, LOW, LOW⟩, ⟨HIGH, HIGH, LOW⟩⟩,
              ⟨⟨HIGH, HIGH, LOW⟩, ⟨HIGH, HIGH, LOW⟩⟩] : List TickInput),
            t.sampled.level c = HIGH) →
          st'.world.calls.count c = scenarioState.world.calls.count c + 1)
      ∧ (∀ (pre post : List TickInput) (t : TickInput),
          ([⟨⟨HIGH, HIGH, LOW⟩, ⟨HIGH, LOW, LOW⟩⟩, ⟨⟨HIGH, LOW, LOW⟩, ⟨HIGH, HIGH, LOW⟩⟩,
              ⟨⟨HIGH, HIGH, LOW⟩, ⟨HIGH, HIGH, LOW⟩⟩] : List TickInput) = pre ++ t :: post →
          ∃ mid : State, runTicks 2 halfVolume 5 scenarioState (pre ++ [t]) = some mid
            ∧ runTicks 2 halfVolume 5 mid post = some st'
            ∧ ∀ c : Clip, mid.lastLevel c = t.sampled.level c) :=
  invocations_count_rising_edges 2 halfVolume 5 scenarioState
    [⟨⟨HIGH, HIGH, LOW⟩, ⟨HIGH, LOW, LOW⟩⟩, ⟨⟨HIGH, LOW, LOW⟩, ⟨HIGH, HIGH, LOW⟩⟩,
      ⟨⟨HIGH, HIGH, LOW⟩, ⟨HIGH, HIGH, LOW⟩⟩]
    (by decide) scenarioState_ready (by intro c; cases c <;> rfl)

/-! ## Shape of one playback, and the volume range -/

theorem chunks_length_bounds (K : Nat) (hK : 0 < K) (l c : List Nat) (hc : c ∈ chunks K l) :
    0 < c.length ∧ c.length ≤ K := by
  have hmem : c.length ∈ (chunks K l).map List.length := List.mem_map_of_mem _ hc
  rw [chunks_lengths K hK _ l (le_refl _), List.mem_append] at hmem
  rcases hmem with h | h
  · have := (List.mem_replicate.mp h).2
    omega
  · by_cases hr : l.length % K = 0
    · simp [hr] at h
    · simp only [if_neg hr, List.mem_singleton] at h
      have := Nat.mod_lt l.length hK
      omega

theorem chunks_sum (K : Nat) (hK : 0 < K) (l : List Nat) :
    ((chunks K l).map List.length).sum = l.length := by
  rw [← List.length_flatten, chunks_join K hK _ l (le_refl _)]

/-- C15: for every valid stream, one `playFile` call returns and appends to the I2S
trace a (possibly empty) run of writes followed by one buffer clear: the clear
occurs exactly once and is the last event, and every write has at least one byte
and at most the chunk size. -/
theorem playFile_trace_shape (K : Nat) (v : Volume) (fuel : Nat) (file : File) (w : World)
    (hK : 1 ≤ K) (hvalid : file.valid = true) (hfuel : file.data.length < fuel) :
    ∃ (file' : File) (w' : World) (ws : List (List Nat)),
      playFile K v fuel file w = some (file', w')
      ∧ w'.i2s = w.i2s ++ ws.map I2SEvent.write ++ [I2SEvent.zeroDmaBuffer]
      ∧ (∀ c ∈ ws, 0 < c.length ∧ c.length ≤ K)
      ∧ (ws.map I2SEvent.write ++ [I2SEvent.zeroDmaBuffer]).count I2SEvent.zeroDmaBuffer = 1
      ∧ (ws.map I2SEvent.write ++ [I2SEvent.zeroDmaBuffer]).getLast?
          = some I2SEvent.zeroDmaBuffer := by
  refine ⟨_, _, (chunks K file.data).map (List.map (volumeStep v)),
    playFile_valid K v hK fuel file w hvalid hfuel, ?_, ?_, ?_, ?_⟩
  · simp [playedWorld, playedOutput, hvalid]
  · intro c hc
    obtain ⟨c0, hc0, rfl⟩ := List.mem_map.mp hc
    simpa using chunks_length_bounds K hK file.data c0 hc0
  · rw [List.count_append]
    have h0 : (List.map I2SEvent.write
        ((chunks K file.data).map (List.map (volumeStep v)))).count I2SEvent.zeroDmaBuffer
        = 0 := by
      apply List.count_eq_zero_of_not_mem
      intro hmem
      obtain ⟨_, _, h⟩ := List.mem_map.mp hmem
      cases h
    rw [h0]
    rfl
  · simp

/-- Witness for C15: five bytes in chunks of two. -/
theorem playFile_trace_shape_witness :
    ∃ (file' : File) (w' : World) (ws : List (List Nat)),
      playFile 2 halfVolume 6 ⟨Clip.rei, true, [1, 2, 3, 4, 5], 0, []⟩ ⟨[], [], []⟩
        = some (file', w')
      ∧ w'.i2s = ([] : List I2SEvent) ++ ws.map I2SEvent.write ++ [I2SEvent.zeroDmaBuffer]
      ∧ (∀ c ∈ ws, 0 < c.length ∧ c.length ≤ 2)
      ∧ (ws.map I2SEvent.write ++ [I2SEvent.zeroDmaBuffer]).count I2SEvent.zeroDmaBuffer = 1
      ∧ (ws.map I2SEvent.write ++ [I2SEvent.zeroDmaBuffer]).getLast?
          = some I2SEvent.zeroDmaBuffer :=
  playFile_trace_shape 2 halfVolume 6 ⟨Clip.rei, true, [1, 2, 3, 4, 5], 0, []⟩ ⟨[], [], []⟩
    (by decide) rfl (by decide)

/-- C16: for every byte `b` in `[0,255]` and every volume `v` in `[0,1]`, the value
the `int16_t` variable `sample` holds after line 81 is the truncated product itself
(the narrowing to `int16_t` changes nothing) and lies in `[-128,127]`, `sample + 128`
lies in `[0,255]`, and the byte stored is `sample + 128` itself: the narrowing to
`uint8_t` does not wrap. -/
theorem no_wrap_when_volume_le_one (v : Volume) (b : Nat) (hb : b ≤ 255)
    (hv : v.num ≤ 2 ^ v.shift) :
    toInt16 (mulVolume (toInt16 ((b : Int) - 128)) v)
        = mulVolume (toInt16 ((b : Int) - 128)) v
      ∧ -128 ≤ toInt16 (mulVolume (toInt16 ((b : Int) - 128)) v)
      ∧ toInt16 (mulVolume (toInt16 ((b : Int) - 128)) v) ≤ 127
      ∧ 0 ≤ toInt16 (mulVolume (toInt16 ((b : Int) - 128)) v) + 128
      ∧ toInt16 (mulVolume (toInt16 ((b : Int) - 128)) v) + 128 ≤ 255
      ∧ (volumeStep v b : Int) = toInt16 (mulVolume (toInt16 ((b : Int) - 128)) v) + 128 := by
  obtain ⟨h1, h2, h3⟩ := volumeStep_range v b hb hv
  have h16 : toInt16 ((b : Int) - 128) = (b : Int) - 128 := by
    unfold toInt16; omega
  rw [h16]
  generalize mulVolume ((b : Int) - 128) v = m at h1 h2 h3
  have h16m : toInt16 m = m := by
    unfold toInt16; omega
  rw [h16m]
  exact ⟨rfl, h1, h2, by omega, by omega, h3⟩

/-- Witness for C16: byte 0 at volume one half. -/
theorem no_wrap_when_volume_le_one_witness :
    toInt16 (mulVolume (toInt16 (((0 : Nat) : Int) - 128)) halfVolume)
        = mulVolume (toInt16 (((0 : Nat) : Int) - 128)) halfVolume
      ∧ -128 ≤ toInt16 (mulVolume (toInt16 (((0 : Nat) : Int) - 128)) halfVolume)
      ∧ toInt16 (mulVolume (toInt16 (((0 : Nat) : Int) - 128)) halfVolume) ≤ 127
      ∧ 0 ≤ toInt16 (mulVolume (toInt16 (((0 : Nat) : Int) - 128)) halfVolume) + 128
      ∧ toInt16 (mulVolume (toInt16 (((0 : Nat) : Int) - 128)) halfVolume) + 128 ≤ 255
      ∧ (volumeStep halfVolume 0 : Int)
          = toInt16 (mulVolume (toInt16 (((0 : Nat) : Int) - 128)) halfVolume) + 128 :=
  no_wrap_when_volume_le_one halfVolume 0 (by decide) (by decide)

/-- C17: for every valid finite stream and chunk size `K ≥ 1`, `playFile` returns;
the reads it makes return a positive count each, except the last, which returns 0
and ends the loop; the counts add up to the stream's length and the cursor is at
the end of the stream on return.  No level takes part: in any tick that triggers
the stream's channel, whatever the remembered levels and the levels sampled on the
other channels, the handle is left exactly as `playFile` alone leaves it. -/
theorem playFile_runs_to_end (K : Nat) (v : Volume) (fuel : Nat) (file : File) (w : World)
    (hK : 1 ≤ K) (hvalid : file.valid = true) (hfuel : file.data.length < fuel) :
    ∃ (file' : File) (w' : World) (counts : List Nat),
      playFile K v fuel file w = some (file', w')
      ∧ file'.ops = file.ops ++ [FileOp.seek 0] ++ counts.map (FileOp.read K)
          ++ [FileOp.read K 0]
      ∧ (∀ n ∈ counts, 0 < n)
      ∧ counts.sum = file.data.length
      ∧ file'.pos = file.data.length
      ∧ (∀ (st : State) (pins : Pins) (c : Clip), st.Ready fuel → st.file c = file →
          pins.level c = HIGH → st.lastLevel c = LOW →
          ∃ st' : State, loop K v fuel st pins = some st' ∧ st'.file c = file') := by
  refine ⟨_, _, (chunks K file.data).map List.length,
    playFile_valid K v hK fuel file w hvalid hfuel, ?_, ?_, chunks_sum K hK file.data, ?_, ?_⟩
  · simp [playedFile, hvalid, List.map_map, Function.comp_def]
  · intro n hn
    obtain ⟨c, hc, rfl⟩ := List.mem_map.mp hn
    exact (chunks_length_bounds K hK file.data c hc).1
  · simp [playedFile, hvalid]
  · intro st pins c hready hfile hhigh hlow
    refine ⟨_, loop_ready K v hK fuel st pins hready, ?_⟩
    rw [afterLoop_file, if_pos ⟨hhigh, hlow⟩, hfile]

/-- Witness for C17: the scenario's first stream, alone and inside a tick in which
the other two buttons are pressed as well. -/
theorem playFile_runs_to_end_witness :
    ∃ (file' : File) (w' : World) (counts : List Nat),
      playFile 2 halfVolume 5 scenarioState.kiritsuFile ⟨[], [], []⟩ = some (file', w')
      ∧ file'.ops = scenarioState.kiritsuFile.ops ++ [FileOp.seek 0]
          ++ counts.map (FileOp.read 2) ++ [FileOp.read 2 0]
      ∧ (∀ n ∈ counts, 0 < n)
      ∧ counts.sum = scenarioState.kiritsuFile.data.length
      ∧ file'.pos = scenarioState.kiritsuFile.data.length
      ∧ (∀ (st : State) (pins : Pins) (c : Clip), st.Ready 5 →
          st.file c = scenarioState.kiritsuFile →
          pins.level c = HIGH → st.lastLevel c = LOW →
          ∃ st' : State, loop 2 halfVolume 5 st pins = some st' ∧ st'.file c = file') :=
  playFile_runs_to_end 2 halfVolume 5 scenarioState.kiritsuFile ⟨[], [], []⟩ (by decide) rfl
    (by decide)

theorem f32Round_le_of_lt (a k n : Nat) (h : a ≤ n * 2 ^ k) (hn : n < 2 ^ 24) :
    f32Round a k ≤ n * 2 ^ k := by
  apply roundHalfEven_le _ _ _ _ h
  have hq : f32Quantum a k ≤ k := by
    have hlt : a < 2 ^ (k + 24) := by
      have hpos : 0 < 2 ^ k := Nat.two_pow_pos _
      have h1 : n * 2 ^ k < 2 ^ 24 * 2 ^ k := Nat.mul_lt_mul_of_pos_right hn hpos
      rw [Nat.pow_add, Nat.mul_comm (2 ^ k)]
      omega
    have := bitLength_le a (k + 24) hlt
    unfold f32Quantum
    omega
  exact Dvd.dvd.mul_left (Nat.pow_dvd_pow 2 hq) n

theorem mulVolume_abs_le (s : Int) (v : Volume) (n : Nat) (hs : s.natAbs ≤ 128)
    (hv : v.num ≤ n * 2 ^ v.shift) (hn : 128 * n < 2 ^ 24) :
    (mulVolume s v).natAbs ≤ s.natAbs * n := by
  have ha : s.natAbs * v.num ≤ (s.natAbs * n) * 2 ^ v.shift := by
    rw [Nat.mul_assoc]; exact Nat.mul_le_mul_left _ hv
  have hlt : s.natAbs * n < 2 ^ 24 :=
    Nat.lt_of_le_of_lt (Nat.mul_le_mul_right _ hs) hn
  have hr := f32Round_le_of_lt (s.natAbs * v.num) v.shift (s.natAbs * n) ha hlt
  have hm : f32Round (s.natAbs * v.num) v.shift / 2 ^ v.shift ≤ s.natAbs * n :=
    Nat.div_le_of_le_mul (by rw [Nat.mul_comm (2 ^ v.shift)]; exact hr)
  unfold mulVolume
  simp only
  generalize f32Round (s.natAbs * v.num) v.shift / 2 ^ v.shift = m at hm
  split <;> omega

/-- C18 (the claim as stated fails): at `v = 2` the code turns byte 255 into 126:
the product 254 plus 128 is 382, which the conversion to `uint8_t` reduces modulo
256, where a clamp into `[0,255]` gives 255. -/
theorem volumeStep_wraps_above_one :
    (⟨2, 0⟩ : Volume).num > 2 ^ (⟨2, 0⟩ : Volume).shift
      ∧ mulVolume (((255 : Nat) : Int) - 128) ⟨2, 0⟩ = 254
      ∧ volumeStep ⟨2, 0⟩ 255 = 126
      ∧ specClamp (mulVolume (((255 : Nat) : Int) - 128) ⟨2, 0⟩ + 128) 0 255 = 255
      ∧ (volumeStep ⟨2, 0⟩ 255 : Int)
          ≠ specClamp (mulVolume (((255 : Nat) : Int) - 128) ⟨2, 0⟩ + 128) 0 255
      ∧ (254 + 128) % 256 = 126 := by
  decide

/-- C18 (amended): the volume step has no guard against a factor above 1.0.  For
every byte `b` in `[0,255]` and every factor `v` with `1 < v ≤ 255`, the byte
produced is `(t + 128) mod 256`, where `t` is the one integer that
`specTruncatedProduct` describes: the product `(b-128)*v` rounded to single
precision and cut off toward zero (the exact product cut off toward zero when the
product is exact in single precision).  `t` is at least as large in magnitude as
`b - 128`.  When `t + 128` lies in `[0,255]` the byte is `clamp(t + 128, 0, 255)`;
when it does not, the byte is not `t + 128`: it has wrapped around. -/
theorem volumeStep_above_one (v : Volume) (b : Nat) (hb : b ≤ 255)
    (hlo : 2 ^ v.shift < v.num) (hhi : v.num ≤ 255 * 2 ^ v.shift) :
    ∃ t : Int, specTruncatedProduct ((b : Int) - 128) v t
      ∧ (∀ t' : Int, specTruncatedProduct ((b : Int) - 128) v t' → t' = t)
      ∧ (volumeStep v b : Int) = (t + 128) % 256
      ∧ ((b : Int) - 128).natAbs ≤ t.natAbs
      ∧ ((0 ≤ t + 128 ∧ t + 128 ≤ 255) → (volumeStep v b : Int) = specClamp (t + 128) 0 255)
      ∧ (¬ (0 ≤ t + 128 ∧ t + 128 ≤ 255) → (volumeStep v b : Int) ≠ t + 128)
      ∧ (((b : Int) - 128).natAbs * v.num < 2 ^ 24 → v.shift ≤ 149 →
          t = specTrunc (((b : Int) - 128) * v.num) v.shift) := by
  have hs : ((b : Int) - 128).natAbs ≤ 128 := by omega
  have habs := mulVolume_abs_le ((b : Int) - 128) v 255 hs hhi (by decide)
  have hge := mulVolume_abs_ge ((b : Int) - 128) v hs (Nat.le_of_lt hlo) hhi
  have hspec := mulVolume_specTruncatedProduct ((b : Int) - 128) v
  have hexact := mulVolume_exact_specTrunc ((b : Int) - 128) v
  have h16 : toInt16 ((b : Int) - 128) = (b : Int) - 128 := by
    unfold toInt16; omega
  have hstep : (volumeStep v b : Int) = (mulVolume ((b : Int) - 128) v + 128) % 256 := by
    unfold volumeStep
    simp only [h16]
    generalize mulVolume ((b : Int) - 128) v = m at habs
    have h16m : toInt16 m = m := by
      unfold toInt16; omega
    rw [h16m]
    unfold toUInt8
    omega
  refine ⟨mulVolume ((b : Int) - 128) v, hspec,
    fun t' ht' => specTruncatedProduct_unique _ _ _ _ ht' hspec, hstep, hge, ?_, ?_, hexact⟩
  · intro h
    rw [hstep]
    unfold specClamp
    omega
  · intro h
    rw [hstep]
    omega

/-- Witness for C18 (amended): byte 255 at volume 2. -/
theorem volumeStep_above_one_witness :
    ∃ t : Int, specTruncatedProduct (((255 : Nat) : Int) - 128) ⟨2, 0⟩ t
      ∧ (∀ t' : Int, specTruncatedProduct (((255 : Nat) : Int) - 128) ⟨2, 0⟩ t' → t' = t)
      ∧ (volumeStep ⟨2, 0⟩ 255 : Int) = (t + 128) % 256
      ∧ (((255 : Nat) : Int) - 128).natAbs ≤ t.natAbs
      ∧ ((0 ≤ t + 128 ∧ t + 128 ≤ 255) →
          (volumeStep ⟨2, 0⟩ 255 : Int) = specClamp (t + 128) 0 255)
      ∧ (¬ (0 ≤ t + 128 ∧ t + 128 ≤ 255) → (volumeStep ⟨2, 0⟩ 255 : Int) ≠ t + 128)
      ∧ ((((255 : Nat) : Int) - 128).natAbs * (⟨2, 0⟩ : Volume).num < 2 ^ 24 →
          (⟨2, 0⟩ : Volume).shift ≤ 149 →
          t = specTrunc ((((255 : Nat) : Int) - 128) * (⟨2, 0⟩ : Volume).num)
                (⟨2, 0⟩ : Volume).shift) :=
  volumeStep_above_one ⟨2, 0⟩ 255 (by decide) (by decide) (by decide)

end AmpCommand
